import Mathlib

/-!
Verification of the nebula-storage metadata service and index lookup planner.

This file gives a shallow embedding, in Lean, of the parts of the code base
that the checked properties speak about:

* `BaseProcessor::indexCheck` and `BaseProcessor::checkIndexExist`
  (meta/processors/BaseProcessor.h implementation file),
* `BaseProcessor::autoIncrementId`,
* `DropSpaceProcessor::process`,
* `Snapshot::{getSpacesHosts, blockingWrites, createSnapshot, dropSnapshot}`,
* `CreateBackupProcessor::process`,
* `LookupBaseProcessor::{isOutsideIndex, buildPlan}` and the four plan
  builders.

Machine integers are modelled as `Int` with explicit reduction into the
32-bit two's-complement range where the code performs `int32_t` arithmetic.
Unchecked vector accesses are modelled with `Option`-returning indexing, so
an out-of-bounds access surfaces as `none`.  The key-value store is an
association list from symbolic metadata keys to symbolic values; RPC calls
to storage hosts are recorded in an explicit trace so that "the call was
attempted" is a provable statement.
-/

set_option autoImplicit false

namespace NebulaMeta

/-- The slice of `cpp2::ErrorCode` used by the embedded processors. -/
inductive ErrorCode where
  | SUCCEEDED
  | E_NOT_FOUND
  | E_CONFLICT
  | E_LEADER_CHANGED
  | E_STORE_FAILURE
  | E_RPC_FAILURE
  | E_BLOCK_WRITE_FAILURE
  | E_BACKUP_FAILURE
  | E_BACKUP_BUILDING_INDEX
  | E_BACKUP_SPACE_NOT_FOUND
  | E_NO_HOSTS
  | E_INVALID_OPERATION
  deriving DecidableEq, Repr

/-- Embeds `cpp2::AlterSchemaOp`. -/
inductive AlterSchemaOp where
  | ADD
  | CHANGE
  | DROP
  deriving DecidableEq, Repr

/-- Embeds `meta::cpp2::ColumnDef` restricted to the members the embedded code
reads: the column name and the nullable flag. -/
structure ColumnDef where
  name : String
  nullable : Bool
  deriving DecidableEq, Repr

/-- Embeds `cpp2::AlterSchemaItem`: an alter operation together with the columns of
its schema (`tagItem.get_schema().get_columns()`). -/
structure AlterSchemaItem where
  op : AlterSchemaOp
  columns : List ColumnDef
  deriving DecidableEq, Repr

/-- Embeds `cpp2::IndexItem` restricted to the members the embedded code reads. -/
structure IndexItem where
  indexName : String
  fields : List ColumnDef
  deriving DecidableEq, Repr

/-- Embeds `cpp2::IndexFieldDef`: a requested index field (only the name is read). -/
structure IndexFieldDef where
  name : String
  deriving DecidableEq, Repr

/-- Embeds `BaseProcessor::indexCheck`: for each existing index and each alter item
whose op is CHANGE or DROP, scan the altered columns; if any altered column
name occurs in the index's field list the whole check returns `E_CONFLICT`,
otherwise `SUCCEEDED`.  The nested `List.any` calls mirror the nested
early-return loops of the source. -/
def indexCheck (items : List IndexItem) (alterItems : List AlterSchemaItem) :
    ErrorCode :=
  if items.any (fun index =>
      alterItems.any (fun tagItem =>
        (tagItem.op == AlterSchemaOp.CHANGE || tagItem.op == AlterSchemaOp.DROP) &&
          tagItem.columns.any (fun tCol =>
            index.fields.any (fun iCol => tCol.name == iCol.name)))) then
    ErrorCode.E_CONFLICT
  else
    ErrorCode.SUCCEEDED

/-- The loop of `BaseProcessor::checkIndexExist`: starting at position `i`,
compare `fields[i]` with `item.get_fields()[i]`.  The C++ subscript into
`item.get_fields()` is unchecked, so the embedding reads it through the
`Option`-returning index and yields `none` when the access is out of
bounds.  A name mismatch breaks out of the loop and the function returns
`false`; reaching the last position of `fields` with all names equal
returns `true`. -/
def checkIndexExistLoop (fields : List IndexFieldDef) (itemFields : List ColumnDef)
    (i : Nat) : Option Bool :=
  if h : i < fields.length then
    match itemFields[i]? with
    | none => none
    | some iCol =>
      if (fields.get ⟨i, h⟩).name ≠ iCol.name then
        some false
      else if i = fields.length - 1 then
        some true
      else
        checkIndexExistLoop fields itemFields (i + 1)
  else
    some false
  termination_by fields.length - i

/-- Embeds `BaseProcessor::checkIndexExist`: `fields.size() == 0` reports the index
as already existing; otherwise run the comparison loop from position 0. -/
def checkIndexExist (fields : List IndexFieldDef) (item : IndexItem) :
    Option Bool :=
  if fields.length = 0 then some true
  else checkIndexExistLoop fields item.fields 0

/-- Reduce an integer into the `int32_t` range, two's complement: this is
what storing the low 32 bits of a machine integer and re-reading them as
`int32_t` yields. -/
def toInt32 (x : Int) : Int := (x + 2 ^ 31) % 2 ^ 32 - 2 ^ 31

/-- Embeds `BaseProcessor::autoIncrementId`: under the id-lock, read the reserved
key `"__id__"`; a missing key starts the counter at 1, otherwise the stored
`int32` is incremented (in `int32_t` arithmetic); the new id is written back
and returned.  `stored` is the decoded content of `"__id__"` (`none` when
the key is absent), `getFail` forces the initial read to fail with an engine
error other than key-not-found, and `putOk` tells whether the write-back
succeeds.  The pair returned is (result, content of `"__id__"` afterwards). -/
def autoIncrementId (stored : Option Int) (getFail : Option ErrorCode)
    (putOk : Bool) : Except ErrorCode Int × Option Int :=
  match getFail with
  | some c => (Except.error c, stored)
  | none =>
    let id : Int :=
      match stored with
      | none => 1
      | some v => toInt32 (v + 1)
    if putOk then (Except.ok id, some id)
    else (Except.error ErrorCode.E_STORE_FAILURE, stored)

/-- Runs `n` successive `autoIncrementId` calls with a healthy engine, threading
the stored counter; returns the list of ids handed out and the final
content of `"__id__"`. -/
def runAutoInc : Nat → Option Int → List Int × Option Int
  | 0, st => ([], st)
  | Nat.succ n, st =>
    match autoIncrementId st none true with
    | (Except.ok id, st') =>
      let r := runAutoInc n st'
      (id :: r.1, r.2)
    | (Except.error _, st') => ([], st')

/-! ### Expressions and `LookupBaseProcessor::isOutsideIndex` -/

/-- The two logical expression kinds the traversal recurses into
(`Expression::Kind::kLogicalOr` / `kLogicalAnd`). -/
inductive LogicalKind where
  | logicalOr
  | logicalAnd
  deriving DecidableEq, Repr

/-- The relational expression kinds (`kRelLE` … `kRelNotIn`). -/
inductive RelKind where
  | relLE | relIn | relGE | relEQ | relLT | relGT | relNE | relNotIn
  deriving DecidableEq, Repr

/-- The four edge-key property kinds (`kEdgeSrc`, `kEdgeType`, `kEdgeRank`,
`kEdgeDst`). -/
inductive EdgeKeyKind where
  | src | type | rank | dst
  deriving DecidableEq, Repr

mutual
/-- The expression tree as `isOutsideIndex` observes it.  `logical` and
`rel` are the kinds the traversal recurses into; `edgeKey`, `tagProp` and
`edgeProp` are the property leaves it inspects (each
`PropertyExpression` carries a property name); `otherNode` stands for every
other `Expression::Kind` (arithmetic, unary, function call, …) together
with its operand subexpressions, which the `default` case of the `switch`
does not visit. -/
inductive Expr where
  | logical (k : LogicalKind) (ops : ExprList)
  | rel (k : RelKind) (l r : Expr)
  | edgeKey (k : EdgeKeyKind) (prop : String)
  | tagProp (prop : String)
  | edgeProp (prop : String)
  | otherNode (children : ExprList)

/-- Operand lists of an expression node (`std::vector<Expression>`). -/
inductive ExprList where
  | nil
  | cons (e : Expr) (es : ExprList)
end

/-- The constant `kSrc`: the edge source-vid pseudo property name. -/
def kSrc : String := "_src"
/-- The constant `kType`: the edge type pseudo property name. -/
def kType : String := "_type"
/-- The constant `kRank`: the edge rank pseudo property name. -/
def kRank : String := "_rank"
/-- The constant `kDst`: the edge destination-vid pseudo property name. -/
def kDst : String := "_dst"

/-- The set `propsInEdgeKey` from `LookupBaseProcessor::isOutsideIndex`. -/
def propsInEdgeKey : List String := [kSrc, kType, kRank, kDst]

mutual
/-- Embeds `LookupBaseProcessor::isOutsideIndex`: structural traversal of the
filter.  Logical nodes recurse into their operands and relational nodes
into both sides, returning `true` as soon as a subtree is outside; a
tag-property or edge-property leaf is outside iff its name is missing from
the index's field list; an edge-key leaf is outside iff its name is not one
of the four edge-key names; every other kind returns `false`. -/
def isOutsideIndex (filter : Expr) (index : IndexItem) : Bool :=
  match filter with
  | Expr.logical _ ops => isOutsideIndexList ops index
  | Expr.rel _ l r => isOutsideIndex l index || isOutsideIndex r index
  | Expr.edgeKey _ prop => !(propsInEdgeKey.contains prop)
  | Expr.tagProp prop => !(index.fields.any (fun f => f.name == prop))
  | Expr.edgeProp prop => !(index.fields.any (fun f => f.name == prop))
  | Expr.otherNode _ => false

/-- The operand loop of the logical case: return `true` as soon as one
operand is outside. -/
def isOutsideIndexList (es : ExprList) (index : IndexItem) : Bool :=
  match es with
  | ExprList.nil => false
  | ExprList.cons e rest => isOutsideIndex e index || isOutsideIndexList rest index
end

mutual
/-- Names of all tag-property and edge-property leaves occurring anywhere
in the expression, including below node kinds the traversal does not
visit. -/
def propLeafNames : Expr → List String
  | Expr.logical _ ops => propLeafNamesL ops
  | Expr.rel _ l r => propLeafNames l ++ propLeafNames r
  | Expr.edgeKey _ _ => []
  | Expr.tagProp p => [p]
  | Expr.edgeProp p => [p]
  | Expr.otherNode cs => propLeafNamesL cs

/-- List version of `propLeafNames`. -/
def propLeafNamesL : ExprList → List String
  | ExprList.nil => []
  | ExprList.cons e es => propLeafNames e ++ propLeafNamesL es
end

mutual
/-- Names of all edge-key leaves (`kEdgeSrc`/`kEdgeType`/`kEdgeRank`/
`kEdgeDst`) occurring anywhere in the expression. -/
def edgeKeyLeafNames : Expr → List String
  | Expr.logical _ ops => edgeKeyLeafNamesL ops
  | Expr.rel _ l r => edgeKeyLeafNames l ++ edgeKeyLeafNames r
  | Expr.edgeKey _ p => [p]
  | Expr.tagProp _ => []
  | Expr.edgeProp _ => []
  | Expr.otherNode cs => edgeKeyLeafNamesL cs

/-- List version of `edgeKeyLeafNames`. -/
def edgeKeyLeafNamesL : ExprList → List String
  | ExprList.nil => []
  | ExprList.cons e es => edgeKeyLeafNames e ++ edgeKeyLeafNamesL es
end

mutual
/-- Names of the tag-property and edge-property leaves on the traversal's
spine: the leaves reachable from the root through logical and relational
nodes only.  Leaves below any other node kind are excluded. -/
def spinePropNames : Expr → List String
  | Expr.logical _ ops => spinePropNamesL ops
  | Expr.rel _ l r => spinePropNames l ++ spinePropNames r
  | Expr.edgeKey _ _ => []
  | Expr.tagProp p => [p]
  | Expr.edgeProp p => [p]
  | Expr.otherNode _ => []

/-- List version of `spinePropNames`. -/
def spinePropNamesL : ExprList → List String
  | ExprList.nil => []
  | ExprList.cons e es => spinePropNames e ++ spinePropNamesL es
end

mutual
/-- Names of the edge-key leaves on the traversal's spine. -/
def spineEdgeKeyNames : Expr → List String
  | Expr.logical _ ops => spineEdgeKeyNamesL ops
  | Expr.rel _ l r => spineEdgeKeyNames l ++ spineEdgeKeyNames r
  | Expr.edgeKey _ p => [p]
  | Expr.tagProp _ => []
  | Expr.edgeProp _ => []
  | Expr.otherNode _ => []

/-- List version of `spineEdgeKeyNames`. -/
def spineEdgeKeyNamesL : ExprList → List String
  | ExprList.nil => []
  | ExprList.cons e es => spineEdgeKeyNames e ++ spineEdgeKeyNamesL es
end

/-! ### The metadata key-value store -/

/-- A storage host address (`HostAddr`), abstracted to a number. -/
abbrev Host := Nat

/-- Embeds `cpp2::SnapshotStatus`. -/
inductive SnapshotStatus where
  | INVALID
  | VALID
  deriving DecidableEq, Repr

/-- The metadata keys built by `MetaServiceUtils`, kept symbolic.  A
`partKey` lies under `partPrefix(spaceId)` (and under the global
`partPrefix()`), a `roleKey` under `roleSpacePrefix(spaceId)`, a
`listenerKey` under `listenerPrefix(spaceId)`, a `rebuildIndexStatusKey`
under `rebuildIndexStatusPrefix()`, and a `spaceKey` under
`spacePrefix()`. -/
inductive MetaKey where
  | partKey (space part : Nat)
  | indexSpaceKey (name : String)
  | spaceKey (space : Nat)
  | roleKey (space : Nat) (user : String)
  | listenerKey (space : Nat) (rest : String)
  | statisKey (space : Nat)
  | snapshotKey (name : String)
  | rebuildIndexStatusKey (rest : String)
  | lastUpdateTimeKey
  deriving DecidableEq, Repr

/-- The decoded metadata values the embedded processors read or write. -/
inductive MetaVal where
  | idVal (v : Nat)
  | hostsVal (hosts : List Host)
  | spaceVal (name : String)
  | roleVal (s : String)
  | listenerVal (s : String)
  | statusVal (s : String)
  | snapshotVal (st : SnapshotStatus) (hosts : List Host)
  | timeVal (t : Nat)
  deriving DecidableEq, Repr

/-- The single metadata partition, as an association list. -/
abbrev MetaStore := List (MetaKey × MetaVal)

/-- Point lookup (`kvstore::get`); `none` models `ERR_KEY_NOT_FOUND`. -/
def MetaStore.get (st : MetaStore) (k : MetaKey) : Option MetaVal :=
  (st.find? (fun e => e.1 == k)).map (fun e => e.2)

/-- Write one pair (last write wins). -/
def MetaStore.put (st : MetaStore) (k : MetaKey) (v : MetaVal) : MetaStore :=
  st.filter (fun e => e.1 != k) ++ [(k, v)]

/-- Embeds `asyncMultiPut`: apply the puts of the batch in order. -/
def MetaStore.multiPut (st : MetaStore) (kvs : List (MetaKey × MetaVal)) : MetaStore :=
  kvs.foldl (fun acc kv => acc.put kv.1 kv.2) st

/-- Embeds `asyncMultiRemove`: drop every entry whose key is in the batch. -/
def MetaStore.removeKeys (st : MetaStore) (ks : List MetaKey) : MetaStore :=
  st.filter (fun e => !(ks.contains e.1))

/-- Does this key lie under `partPrefix(space)`? -/
def MetaKey.isPartOf (space : Nat) : MetaKey → Bool
  | MetaKey.partKey s _ => s == space
  | _ => false

/-- Does this key lie under `roleSpacePrefix(space)`? -/
def MetaKey.isRoleOf (space : Nat) : MetaKey → Bool
  | MetaKey.roleKey s _ => s == space
  | _ => false

/-- Does this key lie under `listenerPrefix(space)`? -/
def MetaKey.isListenerOf (space : Nat) : MetaKey → Bool
  | MetaKey.listenerKey s _ => s == space
  | _ => false

/-- The keys of a store matching a predicate, in store order: the result of
consuming a `doPrefix` iterator. -/
def MetaStore.keysWhere (st : MetaStore) (p : MetaKey → Bool) : List MetaKey :=
  (st.filter (fun e => p e.1)).map (fun e => e.1)

/-! ### `DropSpaceProcessor::process` -/

/-- Embeds `BaseProcessor::getSpaceId`: read `indexSpaceKey(name)` and reinterpret
the value as a `GraphSpaceID`.  A missing key maps to `E_NOT_FOUND`; a
value of a different shape decodes to the (junk) id 0, mirroring the
unchecked `reinterpret_cast`. -/
def getSpaceId (st : MetaStore) (name : String) : Except ErrorCode Nat :=
  match st.get (MetaKey.indexSpaceKey name) with
  | some (MetaVal.idVal v) => Except.ok v
  | some _ => Except.ok 0
  | none => Except.error ErrorCode.E_NOT_FOUND

/-- Embeds `DropSpaceProcessor::process`.  Resolves the space id, then collects the
keys to delete: the keys under `partPrefix(spaceId)`, the two space keys,
the keys under `roleSpacePrefix(spaceId)`, then — the listener block, whose
scan in the source reuses `rolePrefix` instead of the `lstPrefix` it just
computed — the keys under `roleSpacePrefix(spaceId)` a second time, and
finally `statisKey(spaceId)`; removes them with
`doSyncMultiRemoveAndUpdate`, which also bumps `lastUpdateTime` to `now`.
Returns the response error code and the resulting store. -/
def DropSpaceProcessor.process (st : MetaStore) (spaceName : String)
    (ifExists : Bool) (now : Nat) : ErrorCode × MetaStore :=
  match getSpaceId st spaceName with
  | Except.error e =>
    if e = ErrorCode.E_NOT_FOUND ∧ ifExists then (ErrorCode.SUCCEEDED, st)
    else (e, st)
  | Except.ok spaceId =>
    let deleteKeys :=
      st.keysWhere (MetaKey.isPartOf spaceId)
      ++ [MetaKey.indexSpaceKey spaceName, MetaKey.spaceKey spaceId]
      ++ st.keysWhere (MetaKey.isRoleOf spaceId)
      ++ st.keysWhere (MetaKey.isRoleOf spaceId)
      ++ [MetaKey.statisKey spaceId]
    let st' := (st.removeKeys deleteKeys).put MetaKey.lastUpdateTimeKey (MetaVal.timeVal now)
    (ErrorCode.SUCCEEDED, st')

/-! ### `Snapshot`: blocking writes, checkpoints -/

/-- Embeds `storage::cpp2::EngineSignType`. -/
inductive SignType where
  | BLOCK_ON
  | BLOCK_OFF
  deriving DecidableEq, Repr

/-- One admin RPC issued to a storage host, recorded in issue order. -/
inductive RpcCall where
  | blocking (sign : SignType) (space : Nat) (host : Host)
  | createSnap (space : Nat) (host : Host)
  | dropSnap (space : Nat) (host : Host)
  deriving DecidableEq, Repr

/-- The storage admin client: for each RPC, whether the host reports
success (`status.ok()`); `createDir` is the checkpoint directory returned
by a successful `createSnapshot` RPC. -/
structure AdminClient where
  blockingOk : Nat → SignType → Host → Bool
  createOk : Nat → Host → Bool
  createDir : Nat → Host → String
  dropOk : Nat → Host → Bool

/-- The `Snapshot` singleton's environment: the client, the spaces filter
set with `setSpaces` (empty means no filtering), and an optional forced
engine failure of the `partPrefix` scan inside `getSpacesHosts`. -/
structure SnapshotEnv where
  client : AdminClient
  spaces : List Nat
  scanErr : Option ErrorCode

/-- Insert a host into the bucket of `space`, deduplicating
(`std::set` insertion), creating the bucket on first use
(`std::map::operator[]`). -/
def addSpaceHost (acc : List (Nat × List Host)) (space : Nat) (h : Host) :
    List (Nat × List Host) :=
  match acc with
  | [] => [(space, [h])]
  | (s, hs) :: rest =>
    if s = space then
      if hs.contains h then (s, hs) :: rest else (s, hs ++ [h]) :: rest
    else (s, hs) :: addSpaceHost rest space h

/-- The iterator loop of `Snapshot::getSpacesHosts`: walk every entry under
`partPrefix()` in store order, parse the space id from the key and the host
list from the value, skip spaces outside the filter when a filter is set,
and group the hosts by space. -/
def collectSpacesHosts (spaces : List Nat) (st : MetaStore) :
    List (Nat × List Host) :=
  st.foldl
    (fun acc e =>
      match e with
      | (MetaKey.partKey s _, MetaVal.hostsVal hs) =>
        if spaces ≠ [] ∧ ¬ spaces.contains s then acc
        else hs.foldl (fun a h => addSpaceHost a s h) acc
      | _ => acc)
    []

/-- Embeds `Snapshot::getSpacesHosts`: scan `partPrefix()` and group hosts by
space; a failed scan surfaces the engine error. -/
def Snapshot.getSpacesHosts (env : SnapshotEnv) (st : MetaStore) :
    Except ErrorCode (List (Nat × List Host)) :=
  match env.scanErr with
  | some c => Except.error c
  | none => Except.ok (collectSpacesHosts env.spaces st)

/-- The error mapping shared by the three `Snapshot` operations: an
enumeration failure other than `E_LEADER_CHANGED` becomes
`E_STORE_FAILURE`. -/
def snapshotErr (c : ErrorCode) : ErrorCode :=
  if c ≠ ErrorCode.E_LEADER_CHANGED then ErrorCode.E_STORE_FAILURE else c

/-- The inner host loop of `Snapshot::blockingWrites` for one space: send
the sign to each host; a failed RPC records the failure and, for
`BLOCK_ON`, breaks out of the loop for this space.  Returns (did any RPC
fail, calls issued). -/
def blockHostsLoop (client : AdminClient) (sign : SignType) (space : Nat) :
    List Host → Bool × List RpcCall
  | [] => (false, [])
  | h :: hs =>
    if client.blockingOk space sign h then
      let r := blockHostsLoop client sign space hs
      (r.1, RpcCall.blocking sign space h :: r.2)
    else if sign = SignType.BLOCK_ON then
      (true, [RpcCall.blocking sign space h])
    else
      let r := blockHostsLoop client sign space hs
      (true, RpcCall.blocking sign space h :: r.2)

/-- Embeds `Snapshot::blockingWrites`: enumerate the spaces' hosts and send the
sign to each (space, host) pair; any per-host failure makes the result
`E_BLOCK_WRITE_FAILURE`, and with `BLOCK_ON` the failing space's remaining
hosts are skipped; the other spaces are still visited. -/
def Snapshot.blockingWrites (env : SnapshotEnv) (st : MetaStore)
    (sign : SignType) : ErrorCode × List RpcCall :=
  match Snapshot.getSpacesHosts env st with
  | Except.error c => (snapshotErr c, [])
  | Except.ok spacesHosts =>
    let r := spacesHosts.foldl
      (fun acc sh =>
        let r := blockHostsLoop env.client sign sh.1 sh.2
        (acc.1 || r.1, acc.2 ++ r.2))
      (false, [])
    (if r.1 then ErrorCode.E_BLOCK_WRITE_FAILURE else ErrorCode.SUCCEEDED, r.2)

/-- The inner host loop of `Snapshot::createSnapshot` for one space:
create a checkpoint on each host in order, collecting `CheckpointInfo`
pairs (host, checkpoint directory); the first failing RPC aborts with
`E_RPC_FAILURE`, leaving the remaining hosts unattempted.  Returns the
outcome together with the calls issued. -/
def createSnapHosts (client : AdminClient) (s : Nat) :
    List Host → Except ErrorCode (List (Host × String)) × List RpcCall
  | [] => (Except.ok [], [])
  | h :: hs =>
    if client.createOk s h then
      let r := createSnapHosts client s hs
      (r.1.map (fun info => (h, client.createDir s h) :: info),
       RpcCall.createSnap s h :: r.2)
    else
      (Except.error ErrorCode.E_RPC_FAILURE, [RpcCall.createSnap s h])

/-- The outer space loop of `Snapshot::createSnapshot`: run the host loop
per space, accumulating the per-space `CheckpointInfo` map; a failure in
any space's host loop aborts the whole operation, leaving the remaining
spaces unattempted. -/
def createSnapLoop (client : AdminClient) :
    List (Nat × List Host) →
    Except ErrorCode (List (Nat × List (Host × String))) × List RpcCall
  | [] => (Except.ok [], [])
  | (s, hs) :: rest =>
    let r := createSnapHosts client s hs
    match r.1 with
    | Except.error e => (Except.error e, r.2)
    | Except.ok info =>
      let rr := createSnapLoop client rest
      (rr.1.map (fun m => (s, info) :: m), r.2 ++ rr.2)

/-- Embeds `Snapshot::createSnapshot`: enumerate the spaces' hosts, then create a
checkpoint on every (space, host) pair, aborting on the first failure. -/
def Snapshot.createSnapshot (env : SnapshotEnv) (st : MetaStore)
    (_name : String) :
    Except ErrorCode (List (Nat × List (Host × String))) × List RpcCall :=
  match Snapshot.getSpacesHosts env st with
  | Except.error c => (Except.error (snapshotErr c), [])
  | Except.ok spacesHosts => createSnapLoop env.client spacesHosts

/-- Embeds `Snapshot::dropSnapshot`: enumerate the spaces' hosts and drop the
checkpoint on every (space, host) pair whose host occurs in `hosts`; a
failed drop is only logged; the result is `SUCCEEDED` whenever the
enumeration succeeded. -/
def Snapshot.dropSnapshot (env : SnapshotEnv) (st : MetaStore)
    (hosts : List Host) : ErrorCode × List RpcCall :=
  match Snapshot.getSpacesHosts env st with
  | Except.error c => (snapshotErr c, [])
  | Except.ok spacesHosts =>
    (ErrorCode.SUCCEEDED,
     (spacesHosts.map (fun sh =>
        (sh.2.filter (fun h => hosts.contains h)).map
          (fun h => RpcCall.dropSnap sh.1 h))).flatten)

/-! ### `CreateBackupProcessor::process` -/

/-- Embeds `CreateBackupProcessor::isIndexRebuilding`: true iff some entry under
`rebuildIndexStatusPrefix()` has the value `"RUNNING"`. -/
def isIndexRebuilding (st : MetaStore) : Bool :=
  st.any (fun e =>
    match e with
    | (MetaKey.rebuildIndexStatusKey _, MetaVal.statusVal s) => s == "RUNNING"
    | _ => false)

/-- Decode a `GraphSpaceID` from an index value (`reinterpret_cast`); a
value of an unexpected shape decodes to junk (0). -/
def decodeSpaceId : MetaVal → Nat
  | MetaVal.idVal v => v
  | _ => 0

/-- Embeds `CreateBackupProcessor::spaceNameToId`: with a request space list,
multi-get the `indexSpaceKey` of every name (any missing name fails the
multi-get); without one, scan `spacePrefix()` and collect every space id.
An empty result set is `E_BACKUP_SPACE_NOT_FOUND`. -/
def spaceNameToId (st : MetaStore) (backupSpaces : Option (List String)) :
    Except ErrorCode (List Nat) :=
  match backupSpaces with
  | some names =>
    if names.all (fun n => (st.get (MetaKey.indexSpaceKey n)).isSome) then
      let spaces := (names.filterMap
        (fun n => st.get (MetaKey.indexSpaceKey n))).map decodeSpaceId
      if spaces = [] then Except.error ErrorCode.E_BACKUP_SPACE_NOT_FOUND
      else Except.ok spaces.dedup
    else Except.error ErrorCode.E_NOT_FOUND
  | none =>
    let spaces := st.filterMap
      (fun e =>
        match e with
        | (MetaKey.spaceKey s, _) => some s
        | _ => none)
    if spaces = [] then Except.error ErrorCode.E_BACKUP_SPACE_NOT_FOUND
    else Except.ok spaces.dedup

/-- Everything `CreateBackupProcessor::process` consumes besides the
metadata store: leadership of the meta partition, the active host set
(`ActiveHostsMan::getActiveHosts`, an external collaborator), the optional
space-name list of the request, the storage admin client, a forced engine
failure for the `Snapshot` host enumeration, the outcome of the meta SST
export (`MetaServiceUtils::backup`; `none` is failure), a forced engine
failure of the final `doSyncPut`, and the timestamp string for the backup
name. -/
structure BackupEnv where
  store : MetaStore
  isLeader : Bool
  activeHostsRes : Except ErrorCode (List Host)
  backupSpacesReq : Option (List String)
  client : AdminClient
  scanErr : Option ErrorCode
  metaBackupRes : Option (List String)
  putErr : Option ErrorCode
  ts : String

/-- The backup name `"BACKUP_" + genTimestampStr()`. -/
def backupNameOf (env : BackupEnv) : String := "BACKUP_" ++ env.ts

/-- Embeds `CreateBackupProcessor::process`.  Returns the response error code, the
resulting metadata store, and the admin RPC trace.  Note that the INVALID
snapshot record is only appended to the local `data` batch; the batch is
written — INVALID then VALID entry, so the VALID one survives — by the
single `doSyncPut` that happens after write blocking has been lifted. -/
def CreateBackupProcessor.process (env : BackupEnv) :
    ErrorCode × MetaStore × List RpcCall :=
  if ¬ env.isLeader then (ErrorCode.E_LEADER_CHANGED, env.store, [])
  else if isIndexRebuilding env.store then
    (ErrorCode.E_BACKUP_BUILDING_INDEX, env.store, [])
  else
    match env.activeHostsRes with
    | Except.error c => (c, env.store, [])
    | Except.ok hosts =>
      if hosts = [] then (ErrorCode.E_NO_HOSTS, env.store, [])
      else
        match spaceNameToId env.store env.backupSpacesReq with
        | Except.error c => (c, env.store, [])
        | Except.ok spaces =>
          let backupName := backupNameOf env
          let data := [(MetaKey.snapshotKey backupName,
                        MetaVal.snapshotVal SnapshotStatus.INVALID hosts)]
          let snapEnv : SnapshotEnv := ⟨env.client, spaces, env.scanErr⟩
          -- step 1: block all writes on the storage engines
          let onRes := Snapshot.blockingWrites snapEnv env.store SignType.BLOCK_ON
          if onRes.1 ≠ ErrorCode.SUCCEEDED then
            let offRes := Snapshot.blockingWrites snapEnv env.store SignType.BLOCK_OFF
            (onRes.1, env.store, onRes.2 ++ offRes.2)
          else
            -- step 3: create a checkpoint on every storage engine
            let sRes := Snapshot.createSnapshot snapEnv env.store backupName
            match sRes.1 with
            | Except.error c =>
              let offRes := Snapshot.blockingWrites snapEnv env.store SignType.BLOCK_OFF
              (c, env.store, onRes.2 ++ sRes.2 ++ offRes.2)
            | Except.ok _snapshotInfo =>
              -- step 4: export the meta SST files
              match env.metaBackupRes with
              | none =>
                (ErrorCode.E_BACKUP_FAILURE, env.store, onRes.2 ++ sRes.2)
              | some _backupFiles =>
                -- step 5: release the write blocking
                let offRes := Snapshot.blockingWrites snapEnv env.store SignType.BLOCK_OFF
                if offRes.1 ≠ ErrorCode.SUCCEEDED then
                  (offRes.1, env.store, onRes.2 ++ sRes.2 ++ offRes.2)
                else
                  -- step 6: append the VALID record and write the batch
                  let data := data ++ [(MetaKey.snapshotKey backupName,
                                        MetaVal.snapshotVal SnapshotStatus.VALID hosts)]
                  match env.putErr with
                  | some c => (c, env.store, onRes.2 ++ sRes.2 ++ offRes.2)
                  | none =>
                    let st' := env.store.multiPut data
                    -- the backup-info loop re-reads every space's descriptor
                    if spaces.all (fun sid => (st'.get (MetaKey.spaceKey sid)).isSome) then
                      (ErrorCode.SUCCEEDED, st', onRes.2 ++ sRes.2 ++ offRes.2)
                    else
                      (ErrorCode.E_NOT_FOUND, st', onRes.2 ++ sRes.2 ++ offRes.2)

/-! ### `LookupBaseProcessor::buildPlan` -/

/-- The typed plan node kinds the builders allocate. -/
inductive NodeKind where
  | indexScanNode
  | indexVertexNode
  | indexEdgeNode
  | indexFilterNode
  | indexOutputNode
  | deDupNode
  | aggregateNode
  deriving DecidableEq, Repr

/-- A plan node in arena form: its id, kind, and the ids of the nodes it
depends on (`addDependency` edges). -/
structure PNode where
  nid : Nat
  kind : NodeKind
  deps : List Nat
  deriving DecidableEq, Repr

/-- Embeds `cpp2::IndexQueryContext` restricted to what the shape decision reads:
the chosen index id and the decoded filter (`none` when the filter is
unset or the empty string). -/
structure IndexQueryContext where
  indexId : Nat
  filter : Option Expr

/-- The processor state `buildPlan` consumes after `requestCheck`:
edge-or-tag flag, the YIELD columns, the index manager lookup
(`getEdgeIndex`/`getTagIndex`), and the schema version list `schemas_`. -/
structure PlanEnv where
  isEdge : Bool
  yieldCols : List String
  getIndex : Nat → Option IndexItem
  schemas : List String

/-- The constant `kVid`: vertex-id pseudo property name. -/
def kVid : String := "_vid"
/-- The constant `kTag`: tag-id pseudo property name. -/
def kTag : String := "_tag"

/-- The set `propsInKey` from the yield-column loop of `buildPlan`. -/
def propsInKey : List String := [kVid, kTag, kSrc, kType, kRank, kDst]

/-- The yield-column loop of `buildPlan`: `needData` becomes true the first
time a return column is neither a key-kind column nor one of the index
fields. -/
def yieldNeedData (yieldCols : List String) (fields : List ColumnDef) : Bool :=
  yieldCols.any (fun c =>
    !(propsInKey.contains c) && !(fields.any (fun f => f.name == c)))

/-- Embeds `LookupBaseProcessor::buildPlanBasic`: IndexScanNode → IndexOutputNode,
allocated from `startId`.  Returns the nodes in plan order and the output
node's id. -/
def buildPlanBasic (startId : Nat) : List PNode × Nat :=
  ([⟨startId, NodeKind.indexScanNode, []⟩,
    ⟨startId + 1, NodeKind.indexOutputNode, [startId]⟩],
   startId + 1)

/-- Embeds `LookupBaseProcessor::buildPlanWithData`: IndexScanNode →
(IndexEdgeNode | IndexVertexNode) → IndexOutputNode. -/
def buildPlanWithData (isEdge : Bool) (startId : Nat) : List PNode × Nat :=
  ([⟨startId, NodeKind.indexScanNode, []⟩,
    ⟨startId + 1,
     if isEdge then NodeKind.indexEdgeNode else NodeKind.indexVertexNode,
     [startId]⟩,
    ⟨startId + 2, NodeKind.indexOutputNode, [startId + 1]⟩],
   startId + 2)

/-- Embeds `LookupBaseProcessor::buildPlanWithFilter`: IndexScanNode →
IndexFilterNode → IndexOutputNode. -/
def buildPlanWithFilter (startId : Nat) : List PNode × Nat :=
  ([⟨startId, NodeKind.indexScanNode, []⟩,
    ⟨startId + 1, NodeKind.indexFilterNode, [startId]⟩,
    ⟨startId + 2, NodeKind.indexOutputNode, [startId + 1]⟩],
   startId + 2)

/-- Embeds `LookupBaseProcessor::buildPlanWithDataAndFilter`: IndexScanNode →
(IndexEdgeNode | IndexVertexNode) → IndexFilterNode → IndexOutputNode. -/
def buildPlanWithDataAndFilter (isEdge : Bool) (startId : Nat) :
    List PNode × Nat :=
  ([⟨startId, NodeKind.indexScanNode, []⟩,
    ⟨startId + 1,
     if isEdge then NodeKind.indexEdgeNode else NodeKind.indexVertexNode,
     [startId]⟩,
    ⟨startId + 2, NodeKind.indexFilterNode, [startId + 1]⟩,
    ⟨startId + 3, NodeKind.indexOutputNode, [startId + 2]⟩],
   startId + 3)

/-- The context loop of `buildPlan`: resolve the context's index
(`Status::IndexNotFound` on failure), compute `needFilter`, `needData` and
the `isOutsideIndex` promotion, then dispatch to the matching builder; the
(data ∧ filter) branch first rejects an empty `schemas_` with
"Schema not found".  Each context's nodes are appended to the plan with the
output node last, and the output node ids are collected for the DeDup
dependencies.  Returns (nodes, output ids, next fresh id).  The builders
never return a null node, so the "Index scan plan error" path of the
source is unreachable. -/
def buildPlanLoop (env : PlanEnv) :
    List IndexQueryContext → Nat → Except String (List PNode × List Nat × Nat)
  | [], n => Except.ok ([], [], n)
  | ctx :: rest, n =>
    match env.getIndex ctx.indexId with
    | none => Except.error "IndexNotFound"
    | some indexItem =>
      let fields := indexItem.fields
      let needFilter0 := ctx.filter.isSome
      let isFieldsOutsideIndex :=
        match ctx.filter with
        | some f => isOutsideIndex f indexItem
        | none => false
      let needData := yieldNeedData env.yieldCols fields || isFieldsOutsideIndex
      let needFilter := needFilter0 || isFieldsOutsideIndex
      let build : Except String (List PNode × Nat) :=
        if !needData && !needFilter then Except.ok (buildPlanBasic n)
        else if needData && !needFilter then
          Except.ok (buildPlanWithData env.isEdge n)
        else if !needData && needFilter then Except.ok (buildPlanWithFilter n)
        else if env.schemas = [] then Except.error "Schema not found"
        else Except.ok (buildPlanWithDataAndFilter env.isEdge n)
      match build with
      | Except.error e => Except.error e
      | Except.ok (chunk, outId) =>
        match buildPlanLoop env rest (outId + 1) with
        | Except.error e => Except.error e
        | Except.ok (nodes, outIds, next) =>
          Except.ok (chunk ++ nodes, outId :: outIds, next)

/-- Embeds `LookupBaseProcessor::buildPlan`: build every context's chain, then
append the DeDupNode — depending on every context's output node — and the
terminal AggregateNode depending on the DeDupNode. -/
def LookupBaseProcessor.buildPlan (env : PlanEnv)
    (contexts : List IndexQueryContext) : Except String (List PNode) :=
  match buildPlanLoop env contexts 0 with
  | Except.error e => Except.error e
  | Except.ok (nodes, outIds, next) =>
    Except.ok (nodes ++
      [⟨next, NodeKind.deDupNode, outIds⟩,
       ⟨next + 1, NodeKind.aggregateNode, [next]⟩])

/-! Specification-side definitions for the plan-shape claim. -/

/-- Defines `needData` as the specification defines it: some return column is
neither key-kind nor an index field, or the filter references a property
outside the index (via `isOutsideIndex`). -/
def specNeedData (env : PlanEnv) (ctx : IndexQueryContext)
    (indexItem : IndexItem) : Bool :=
  yieldNeedData env.yieldCols indexItem.fields ||
    (match ctx.filter with
     | some f => isOutsideIndex f indexItem
     | none => false)

/-- Defines `needFilter` as the specification defines it: a non-empty filter is
present (the `isOutsideIndex` promotion can only fire when one is). -/
def specNeedFilter (ctx : IndexQueryContext) (indexItem : IndexItem) : Bool :=
  ctx.filter.isSome ||
    (match ctx.filter with
     | some f => isOutsideIndex f indexItem
     | none => false)

/-- The node-kind chain the specification's shape table prescribes. -/
def specChainKinds (isEdge needData needFilter : Bool) : List NodeKind :=
  match needData, needFilter with
  | false, false => [NodeKind.indexScanNode, NodeKind.indexOutputNode]
  | true, false =>
    [NodeKind.indexScanNode,
     if isEdge then NodeKind.indexEdgeNode else NodeKind.indexVertexNode,
     NodeKind.indexOutputNode]
  | false, true =>
    [NodeKind.indexScanNode, NodeKind.indexFilterNode,
     NodeKind.indexOutputNode]
  | true, true =>
    [NodeKind.indexScanNode,
     if isEdge then NodeKind.indexEdgeNode else NodeKind.indexVertexNode,
     NodeKind.indexFilterNode, NodeKind.indexOutputNode]

/-- The chain one context contributes, per the specification. -/
def specChainOf (env : PlanEnv) (ctx : IndexQueryContext) : List NodeKind :=
  match env.getIndex ctx.indexId with
  | none => []
  | some indexItem =>
    specChainKinds env.isEdge (specNeedData env ctx indexItem)
      (specNeedFilter ctx indexItem)

/-- Nodes of a linear chain after the head: each depends on its
predecessor. -/
def chainNodesFrom (prev : Nat) : List NodeKind → Nat → List PNode
  | [], _ => []
  | k :: ks, n => ⟨n, k, [prev]⟩ :: chainNodesFrom n ks (n + 1)

/-- Nodes of a linear chain of the given kinds starting at id `n`: the head
has no dependencies, each later node depends on its predecessor. -/
def chainNodes : List NodeKind → Nat → List PNode
  | [], _ => []
  | k :: ks, n => ⟨n, k, []⟩ :: chainNodesFrom n ks (n + 1)

/-- Pairwise agreement of the leading positions: `prefixMatch as bs` is true
iff every position of `as` carries the same name as the corresponding
position of `bs` (positions of `bs` beyond `as` are unconstrained). -/
def prefixMatch : List String → List String → Bool
  | [], _ => true
  | _ :: _, [] => false
  | a :: as, b :: bs => a == b && prefixMatch as bs

/-- The per-context chunks the specification's shape table prescribes,
threading the id counter exactly like `buildPlanLoop`: each context
contributes a linear chain and the id of its output node (the chain's last
node). -/
def specChunks (env : PlanEnv) :
    List IndexQueryContext → Nat → List PNode × List Nat × Nat
  | [], n => ([], [], n)
  | ctx :: rest, n =>
    let ck := specChainOf env ctx
    let r := specChunks env rest (n + ck.length)
    (chainNodes ck n ++ r.1, (n + ck.length - 1) :: r.2.1, r.2.2)

/-! Concrete inputs used by the evaluation theorems. -/

/-- A store holding one space "S" (id 1) with one part, one role, one
listener and a statis record. -/
def dropStoreEx : MetaStore :=
  [(MetaKey.indexSpaceKey "S", MetaVal.idVal 1),
   (MetaKey.spaceKey 1, MetaVal.spaceVal "S"),
   (MetaKey.partKey 1 1, MetaVal.hostsVal [7]),
   (MetaKey.roleKey 1 "u", MetaVal.roleVal "ADMIN"),
   (MetaKey.listenerKey 1 "e1", MetaVal.listenerVal "l"),
   (MetaKey.statisKey 1, MetaVal.statusVal "x")]

/-- A client whose every admin RPC succeeds. -/
def allOkClient : AdminClient :=
  ⟨fun _ _ _ => true, fun _ _ => true, fun _ _ => "dir", fun _ _ => true⟩

/-- A client that accepts every RPC except `blockingWrites(BLOCK_ON)` on
host 11. -/
def blockOnFailClient : AdminClient :=
  ⟨fun _ sign h => sign == SignType.BLOCK_OFF || h == 10,
   fun _ _ => true, fun _ _ => "dir", fun _ _ => true⟩

/-- A client whose `createSnapshot` RPC always fails. -/
def createFailClient : AdminClient :=
  ⟨fun _ _ _ => true, fun _ _ => false, fun _ _ => "dir", fun _ _ => true⟩

/-- A store with one space (id 1) whose single part lives on hosts 10 and
11. -/
def backupStoreEx : MetaStore :=
  [(MetaKey.indexSpaceKey "S", MetaVal.idVal 1),
   (MetaKey.spaceKey 1, MetaVal.spaceVal "S"),
   (MetaKey.partKey 1 1, MetaVal.hostsVal [10, 11])]

/-- A backup environment over `backupStoreEx` in which host 11 rejects
`BLOCK_ON`: leader, no index rebuild, hosts 10 and 11 active, full-cluster
backup, meta SST export would succeed. -/
def backupBlockOnFailEnv : BackupEnv :=
  ⟨backupStoreEx, true, Except.ok [10, 11], none, blockOnFailClient,
   none, some ["sst1"], none, "T"⟩

/-- The same backup environment with a healthy client but a failing meta
SST export. -/
def backupMetaFailEnv : BackupEnv :=
  ⟨backupStoreEx, true, Except.ok [10, 11], none, allOkClient,
   none, none, none, "T"⟩

/-- A snapshot environment (no space filter, healthy engine) over a client
whose `createSnapshot` RPC always fails. -/
def snapCreateFailEnv : SnapshotEnv := ⟨createFailClient, [], none⟩

/-- A snapshot environment over the all-accepting client. -/
def snapAllOkEnv : SnapshotEnv := ⟨allOkClient, [], none⟩

/-- A one-part store on hosts 10 and 11 for the snapshot-loop theorems. -/
def snapStoreEx : MetaStore := [(MetaKey.partKey 1 1, MetaVal.hostsVal [10, 11])]

/-- A plan environment for the witness: tag lookup, YIELD of the single
indexed column `c1`, every index id resolving to an index over `c1`. -/
def planEnvEx : PlanEnv :=
  ⟨false, ["c1"], fun _ => some ⟨"idx", [⟨"c1", false⟩]⟩, ["v1"]⟩

/-- One scan-only context (no filter) for the witness. -/
def planCtxsEx : List IndexQueryContext := [⟨7, none⟩]

/-! ## Theorems -/

/-- C7: `indexCheck` returns SUCCEEDED iff no CHANGE/DROP alter item
contains a column whose name appears in some existing index's field list;
when such a column exists the result is `E_CONFLICT`; items whose op is ADD
never cause rejection. -/
theorem indexCheck_conflict_iff (items : List IndexItem)
    (alterItems : List AlterSchemaItem) :
    (indexCheck items alterItems = ErrorCode.SUCCEEDED ↔
      ¬ ∃ index ∈ items, ∃ tagItem ∈ alterItems,
          (tagItem.op = AlterSchemaOp.CHANGE ∨ tagItem.op = AlterSchemaOp.DROP) ∧
          ∃ tCol ∈ tagItem.columns, ∃ iCol ∈ index.fields, tCol.name = iCol.name)
    ∧ (indexCheck items alterItems = ErrorCode.SUCCEEDED ∨
       indexCheck items alterItems = ErrorCode.E_CONFLICT)
    ∧ ((∀ tagItem ∈ alterItems, tagItem.op = AlterSchemaOp.ADD) →
       indexCheck items alterItems = ErrorCode.SUCCEEDED) := by
  have hb : (items.any (fun index =>
      alterItems.any (fun tagItem =>
        (tagItem.op == AlterSchemaOp.CHANGE || tagItem.op == AlterSchemaOp.DROP) &&
          tagItem.columns.any (fun tCol =>
            index.fields.any (fun iCol => tCol.name == iCol.name))))) = true ↔
      ∃ index ∈ items, ∃ tagItem ∈ alterItems,
          (tagItem.op = AlterSchemaOp.CHANGE ∨ tagItem.op = AlterSchemaOp.DROP) ∧
          ∃ tCol ∈ tagItem.columns, ∃ iCol ∈ index.fields, tCol.name = iCol.name := by
    simp [List.any_eq_true, Bool.and_eq_true, Bool.or_eq_true, beq_iff_eq]
  unfold indexCheck
  by_cases h : (items.any (fun index =>
      alterItems.any (fun tagItem =>
        (tagItem.op == AlterSchemaOp.CHANGE || tagItem.op == AlterSchemaOp.DROP) &&
          tagItem.columns.any (fun tCol =>
            index.fields.any (fun iCol => tCol.name == iCol.name))))) = true
  · rw [if_pos h]
    refine ⟨?_, Or.inr rfl, ?_⟩
    · simp only [hb] at h
      exact ⟨(fun hc => nomatch hc), (fun hn => absurd h hn)⟩
    · intro hall
      exfalso
      rw [hb] at h
      obtain ⟨index, _, tagItem, hmem, hop, _⟩ := h
      have := hall tagItem hmem
      cases hop <;> simp_all
  · rw [if_neg h]
    refine ⟨?_, Or.inl rfl, fun _ => rfl⟩
    rw [← hb]
    simp [h]

/-- C7 witness: a single ADD alter item against an existing index is
accepted. -/
theorem indexCheck_conflict_iff_witness :
    indexCheck [⟨"I", [⟨"a", false⟩, ⟨"b", false⟩]⟩]
        [⟨AlterSchemaOp.ADD, [⟨"d", false⟩]⟩] = ErrorCode.SUCCEEDED :=
  (indexCheck_conflict_iff _ _).2.2 (by decide)

theorem checkIndexExistLoop_eq (fields : List IndexFieldDef)
    (itemFields : List ColumnDef) (hle : fields.length ≤ itemFields.length) :
    ∀ n i, fields.length - i ≤ n → i < fields.length →
    checkIndexExistLoop fields itemFields i =
      some (prefixMatch ((fields.map IndexFieldDef.name).drop i)
                        ((itemFields.map ColumnDef.name).drop i)) := by
  intro n
  induction n with
  | zero => intro i h1 h2; omega
  | succ n ih =>
    intro i h1 h2
    have hib : i < itemFields.length := lt_of_lt_of_le h2 hle
    rw [checkIndexExistLoop, dif_pos h2]
    rw [List.getElem?_eq_getElem hib]
    dsimp only
    simp only [List.get_eq_getElem]
    have hdropF : (fields.map IndexFieldDef.name).drop i =
        fields[i].name :: (fields.map IndexFieldDef.name).drop (i + 1) := by
      rw [List.drop_eq_getElem_cons (by simpa using h2)]
      simp [List.getElem_map]
    have hdropI : (itemFields.map ColumnDef.name).drop i =
        itemFields[i].name :: (itemFields.map ColumnDef.name).drop (i + 1) := by
      rw [List.drop_eq_getElem_cons (by simpa using hib)]
      simp [List.getElem_map]
    rw [hdropF, hdropI]
    by_cases hne : fields[i].name ≠ itemFields[i].name
    · rw [if_pos hne]
      have hbeq : (fields[i].name == itemFields[i].name) = false := by
        simpa using hne
      simp [prefixMatch, hbeq]
    · rw [if_neg hne]
      push_neg at hne
      have hbeq : (fields[i].name == itemFields[i].name) = true := by
        simpa using hne
      by_cases hlast : i = fields.length - 1
      · rw [if_pos hlast]
        have hnil : (fields.map IndexFieldDef.name).drop (i + 1) = [] := by
          apply List.drop_eq_nil_of_le
          simp
          omega
        simp [prefixMatch, hnil, hbeq]
      · rw [if_neg hlast]
        rw [ih (i + 1) (by omega) (by omega)]
        simp [prefixMatch, hbeq]

theorem prefixMatch_eq_true_iff :
    ∀ (as bs : List String), as.length ≤ bs.length →
      (prefixMatch as bs = true ↔ ∀ i, i < as.length → as[i]? = bs[i]?) := by
  intro as
  induction as with
  | nil => intro bs _; simp [prefixMatch]
  | cons a as ih =>
    intro bs hle
    cases bs with
    | nil => simp at hle
    | cons b bs =>
      simp only [prefixMatch, Bool.and_eq_true, beq_iff_eq]
      rw [ih bs (by simpa using hle)]
      constructor
      · rintro ⟨hab, hrest⟩ i hi
        cases i with
        | zero => simp [hab]
        | succ j => simpa using hrest j (by simpa using hi)
      · intro hall
        refine ⟨by simpa using hall 0 (by simp), fun j hj => ?_⟩
        simpa using hall (j + 1) (by simpa using hj)

/-- C8: `checkIndexExist` reports an empty `fields` as an existing
duplicate; for non-empty `fields` within the bounds of `item.fields` it
returns true exactly when every position `i < fields.length` carries the
same name in `fields` and in `item.fields`, and false otherwise. -/
theorem checkIndexExist_pairwise (fields : List IndexFieldDef)
    (item : IndexItem) :
    (fields = [] → checkIndexExist fields item = some true)
    ∧ (fields ≠ [] → fields.length ≤ item.fields.length →
        ((checkIndexExist fields item = some true ↔
           ∀ i, i < fields.length →
             (fields.map IndexFieldDef.name)[i]? =
               (item.fields.map ColumnDef.name)[i]?)
         ∧ (checkIndexExist fields item = some true ∨
            checkIndexExist fields item = some false))) := by
  constructor
  · intro h; subst h; rfl
  · intro hne hle
    have hlen : 0 < fields.length := List.length_pos.mpr hne
    have heq : checkIndexExist fields item =
        some (prefixMatch (fields.map IndexFieldDef.name)
                          (item.fields.map ColumnDef.name)) := by
      unfold checkIndexExist
      rw [if_neg (by omega)]
      have := checkIndexExistLoop_eq fields item.fields hle fields.length 0
        (by omega) hlen
      simpa using this
    have hiff := prefixMatch_eq_true_iff (fields.map IndexFieldDef.name)
      (item.fields.map ColumnDef.name) (by simpa using hle)
    rw [List.length_map] at hiff
    constructor
    · rw [heq]
      constructor
      · intro h
        apply hiff.mp
        simpa using h
      · intro h
        have := hiff.mpr (by simpa using h)
        simp [this]
    · rw [heq]
      cases prefixMatch (fields.map IndexFieldDef.name)
          (item.fields.map ColumnDef.name)
      · exact Or.inr rfl
      · exact Or.inl rfl

/-- C8 witness: a one-field request whose name agrees with the first field
of a two-field index is reported as a duplicate. -/
theorem checkIndexExist_pairwise_witness :
    checkIndexExist [⟨"a"⟩] ⟨"i", [⟨"a", false⟩, ⟨"b", false⟩]⟩ = some true :=
  (((checkIndexExist_pairwise [⟨"a"⟩] ⟨"i", [⟨"a", false⟩, ⟨"b", false⟩]⟩).2
    (by decide) (by decide)).1).mpr (by decide)

/-- C10: under the precondition `fields.length ≤ item.fields.length` every
unchecked access `item.fields[i]` of the loop is in bounds — the
`Option`-returning embedding never yields `none` — and the precondition is
necessary: when the requested field names strictly extend the item's
field list, the access at position `item.fields.length` is out of
bounds. -/
theorem checkIndexExist_access_bounds :
    (∀ (fields : List IndexFieldDef) (item : IndexItem),
       fields.length ≤ item.fields.length →
       (checkIndexExist fields item).isSome = true)
    ∧ checkIndexExist [⟨"a"⟩, ⟨"b"⟩] ⟨"i", [⟨"a", false⟩]⟩ = none := by
  constructor
  · intro fields item hle
    unfold checkIndexExist
    by_cases h : fields.length = 0
    · rw [if_pos h]; rfl
    · rw [if_neg h]
      rw [checkIndexExistLoop_eq fields item.fields hle fields.length 0
        (by omega) (by omega)]
      rfl
  · simp [checkIndexExist, checkIndexExistLoop]

/-- C10 witness: with one requested field against a one-field index the
loop stays in bounds. -/
theorem checkIndexExist_access_bounds_witness :
    (checkIndexExist [⟨"a"⟩] ⟨"i", [⟨"b", false⟩]⟩).isSome = true :=
  checkIndexExist_access_bounds.1 [⟨"a"⟩] ⟨"i", [⟨"b", false⟩]⟩ (by decide)

theorem toInt32_eq_self (x : Int) (h1 : -(2 ^ 31) ≤ x) (h2 : x < 2 ^ 31) :
    toInt32 x = x := by
  unfold toInt32
  have e31 : (2 : Int) ^ 31 = 2147483648 := by norm_num
  have e32 : (2 : Int) ^ 32 = 4294967296 := by norm_num
  rw [e31, e32] at *
  omega

theorem runAutoInc_some (n : Nat) :
    ∀ v : Int, 0 ≤ v → v + n ≤ 2 ^ 31 - 1 →
    runAutoInc n (some v) =
      ((List.range n).map (fun i : Nat => v + (i : Int) + 1), some (v + n)) := by
  induction n with
  | zero => intro v _ _; simp [runAutoInc]
  | succ n ih =>
    intro v hv hbound
    have hstep : autoIncrementId (some v) none true =
        (Except.ok (v + 1), some (v + 1)) := by
      have : toInt32 (v + 1) = v + 1 := by
        apply toInt32_eq_self
        · omega
        · have : (n : Int) ≥ 0 := by positivity
          omega
      simp [autoIncrementId, this]
    rw [runAutoInc, hstep]
    dsimp only
    have hrec := ih (v + 1) (by omega)
      (by push_cast at hbound ⊢; omega)
    rw [hrec]
    simp only [Prod.mk.injEq, Option.some.injEq]
    constructor
    · rw [List.range_succ_eq_map]
      simp only [List.map_cons, List.map_map]
      congr 1
      all_goals first
        | (apply List.map_congr_left
           intro a _
           simp only [Function.comp_apply]
           push_cast
           ring)
        | (push_cast; ring)
    · push_cast
      ring

/-- C9, amended: the first call on a fresh store returns and persists 1;
with `"__id__"` holding `v` in `[-2^31, 2^31 - 1)` a successful call
returns and persists `v + 1`; from a fresh store, `N ≤ 2^31 - 1` successive
successful calls return `1, 2, …, N` and leave `N` stored.  (At
`v = 2^31 - 1` the `int32_t` increment wraps, so the unqualified claim
fails there.) -/
theorem autoIncrementId_spec :
    autoIncrementId none none true = (Except.ok 1, some 1)
    ∧ (∀ v : Int, -(2 ^ 31) ≤ v → v < 2 ^ 31 - 1 →
        autoIncrementId (some v) none true = (Except.ok (v + 1), some (v + 1)))
    ∧ (∀ N : Nat, 1 ≤ N → (N : Int) ≤ 2 ^ 31 - 1 →
        runAutoInc N none =
          ((List.range N).map (fun i : Nat => (i : Int) + 1), some (N : Int))) := by
  refine ⟨rfl, ?_, ?_⟩
  · intro v h1 h2
    have : toInt32 (v + 1) = v + 1 := toInt32_eq_self _ (by omega) (by omega)
    simp [autoIncrementId, this]
  · intro N hN hbound
    obtain ⟨n, rfl⟩ : ∃ n, N = n + 1 := ⟨N - 1, by omega⟩
    have hfirst : autoIncrementId none none true = (Except.ok 1, some 1) := rfl
    rw [runAutoInc, hfirst]
    dsimp only
    have hrest := runAutoInc_some n 1 (by omega)
      (by push_cast at hbound ⊢; omega)
    rw [hrest]
    simp only [Prod.mk.injEq, Option.some.injEq]
    constructor
    · rw [List.range_succ_eq_map]
      simp only [List.map_cons, List.map_map]
      congr 1
      all_goals first
        | (apply List.map_congr_left
           intro a _
           simp only [Function.comp_apply]
           push_cast
           ring)
        | (push_cast; ring)
    · push_cast
      ring

/-- C9 witness: a mid-range increment and a three-call run evaluated
concretely through the amended theorem. -/
theorem autoIncrementId_spec_witness :
    autoIncrementId (some 5) none true = (Except.ok 6, some 6)
    ∧ runAutoInc 3 none = ([1, 2, 3], some 3) := by
  constructor
  · have h := autoIncrementId_spec.2.1 5 (by norm_num) (by norm_num)
    norm_num at h
    exact h
  · have h := autoIncrementId_spec.2.2 3 (by norm_num) (by norm_num)
    norm_num [List.range_succ] at h
    exact h

/-- C9 counterexample: with `"__id__"` holding `2^31 - 1`, a successful
call returns and persists `-2^31` — the `int32_t` increment wraps — and not
`v + 1` as the claim states. -/
theorem autoIncrementId_overflow :
    autoIncrementId (some (2 ^ 31 - 1)) none true
      = (Except.ok (-(2 ^ 31)), some (-(2 ^ 31)))
    ∧ ((2 ^ 31 - 1 : Int) + 1) ≠ -(2 ^ 31) := by
  constructor
  · simp only [autoIncrementId, toInt32]
    norm_num
  · norm_num

mutual
theorem spineSound_expr (e : Expr) (index : IndexItem)
    (h : isOutsideIndex e index = false) :
    (∀ p ∈ spinePropNames e, p ∈ index.fields.map ColumnDef.name) ∧
    (∀ p ∈ spineEdgeKeyNames e, p ∈ propsInEdgeKey) := by
  cases e with
  | logical k ops =>
    have h' : isOutsideIndexList ops index = false := by
      simpa [isOutsideIndex] using h
    have := spineSound_list ops index h'
    simpa [spinePropNames, spineEdgeKeyNames] using this
  | rel k l r =>
    have hl : isOutsideIndex l index = false := by
      simp [isOutsideIndex] at h
      exact h.1
    have hr : isOutsideIndex r index = false := by
      simp [isOutsideIndex] at h
      exact h.2
    have ihl := spineSound_expr l index hl
    have ihr := spineSound_expr r index hr
    constructor
    · intro p hp
      simp only [spinePropNames, List.mem_append] at hp
      cases hp with
      | inl hp => exact ihl.1 p hp
      | inr hp => exact ihr.1 p hp
    · intro p hp
      simp only [spineEdgeKeyNames, List.mem_append] at hp
      cases hp with
      | inl hp => exact ihl.2 p hp
      | inr hp => exact ihr.2 p hp
  | edgeKey k prop =>
    constructor
    · intro p hp; simp [spinePropNames] at hp
    · intro p hp
      simp only [spineEdgeKeyNames, List.mem_singleton] at hp
      subst hp
      have h' : (!(propsInEdgeKey.contains p)) = false := h
      simpa using h'
  | tagProp prop =>
    constructor
    · intro p hp
      simp only [spinePropNames, List.mem_singleton] at hp
      subst hp
      have h' : (!(index.fields.any (fun f => f.name == p))) = false := h
      have hany : (index.fields.any (fun f => f.name == p)) = true := by
        simpa using h'
      rw [List.any_eq_true] at hany
      obtain ⟨f, hf, hname⟩ := hany
      exact List.mem_map.mpr ⟨f, hf, by simpa using hname⟩
    · intro p hp; simp [spineEdgeKeyNames] at hp
  | edgeProp prop =>
    constructor
    · intro p hp
      simp only [spinePropNames, List.mem_singleton] at hp
      subst hp
      have h' : (!(index.fields.any (fun f => f.name == p))) = false := h
      have hany : (index.fields.any (fun f => f.name == p)) = true := by
        simpa using h'
      rw [List.any_eq_true] at hany
      obtain ⟨f, hf, hname⟩ := hany
      exact List.mem_map.mpr ⟨f, hf, by simpa using hname⟩
    · intro p hp; simp [spineEdgeKeyNames] at hp
  | otherNode cs =>
    constructor
    · intro p hp; simp [spinePropNames] at hp
    · intro p hp; simp [spineEdgeKeyNames] at hp

theorem spineSound_list (es : ExprList) (index : IndexItem)
    (h : isOutsideIndexList es index = false) :
    (∀ p ∈ spinePropNamesL es, p ∈ index.fields.map ColumnDef.name) ∧
    (∀ p ∈ spineEdgeKeyNamesL es, p ∈ propsInEdgeKey) := by
  cases es with
  | nil =>
    constructor
    · intro p hp; simp [spinePropNamesL] at hp
    · intro p hp; simp [spineEdgeKeyNamesL] at hp
  | cons e rest =>
    have he : isOutsideIndex e index = false := by
      simp [isOutsideIndexList] at h
      exact h.1
    have hrest : isOutsideIndexList rest index = false := by
      simp [isOutsideIndexList] at h
      exact h.2
    have ih1 := spineSound_expr e index he
    have ih2 := spineSound_list rest index hrest
    constructor
    · intro p hp
      simp only [spinePropNamesL, List.mem_append] at hp
      cases hp with
      | inl hp => exact ih1.1 p hp
      | inr hp => exact ih2.1 p hp
    · intro p hp
      simp only [spineEdgeKeyNamesL, List.mem_append] at hp
      cases hp with
      | inl hp => exact ih1.2 p hp
      | inr hp => exact ih2.2 p hp
end

/-- C4, amended: when `isOutsideIndex` answers false, every tag-property or
edge-property leaf on the traversal's spine (reachable through logical and
relational nodes only) has a name in the index's field list, and every
edge-key leaf on the spine has one of the four edge-key names.  Leaves
below any other node kind are not inspected, so the unqualified
"anywhere inside e" form of the claim fails. -/
theorem isOutsideIndex_false_spine (e : Expr) (index : IndexItem)
    (h : isOutsideIndex e index = false) :
    (∀ p ∈ spinePropNames e, p ∈ index.fields.map ColumnDef.name) ∧
    (∀ p ∈ spineEdgeKeyNames e, p ∈ propsInEdgeKey) :=
  spineSound_expr e index h

/-- C4 witness: a relational comparison of an indexed tag property with an
edge-key leaf is inside the index, and the theorem reports both spine
leaves. -/
theorem isOutsideIndex_false_spine_witness :
    "a" ∈ ([⟨"a", false⟩] : List ColumnDef).map ColumnDef.name :=
  (isOutsideIndex_false_spine
    (Expr.rel RelKind.relEQ (Expr.tagProp "a") (Expr.edgeKey EdgeKeyKind.src "_src"))
    ⟨"i1", [⟨"a", false⟩]⟩ (by decide)).1 "a" (by decide)

/-- C4 counterexample: a tag-property leaf sitting below a node kind the
traversal does not visit (here an `otherNode`) escapes the check:
`isOutsideIndex` answers false although the leaf's name is not an index
field. -/
theorem isOutsideIndex_nonvisited_leaf :
    isOutsideIndex
        (Expr.otherNode (ExprList.cons (Expr.tagProp "z") ExprList.nil))
        ⟨"i1", [⟨"a", false⟩]⟩ = false
    ∧ "z" ∈ propLeafNames
        (Expr.otherNode (ExprList.cons (Expr.tagProp "z") ExprList.nil))
    ∧ "z" ∉ (([⟨"a", false⟩] : List ColumnDef).map ColumnDef.name) := by
  refine ⟨by decide, by decide, by decide⟩

/-- C1: dropping the space removes the part, index, space, role and statis
keys — but the key under `listenerPrefix(spaceId)` survives, because the
listener scan of `DropSpaceProcessor::process` reuses `rolePrefix` instead
of the `lstPrefix` it just computed (the `lstPrefix` variable is dead).
Evaluated on a store holding one space with one part, one role, one
listener and one statis record. -/
theorem dropSpace_listener_survives :
    (DropSpaceProcessor.process dropStoreEx "S" false 42).1 = ErrorCode.SUCCEEDED
    ∧ ((DropSpaceProcessor.process dropStoreEx "S" false 42).2).get
        (MetaKey.listenerKey 1 "e1") = some (MetaVal.listenerVal "l")
    ∧ ((DropSpaceProcessor.process dropStoreEx "S" false 42).2).get
        (MetaKey.partKey 1 1) = none
    ∧ ((DropSpaceProcessor.process dropStoreEx "S" false 42).2).get
        (MetaKey.indexSpaceKey "S") = none
    ∧ ((DropSpaceProcessor.process dropStoreEx "S" false 42).2).get
        (MetaKey.spaceKey 1) = none
    ∧ ((DropSpaceProcessor.process dropStoreEx "S" false 42).2).get
        (MetaKey.roleKey 1 "u") = none
    ∧ ((DropSpaceProcessor.process dropStoreEx "S" false 42).2).get
        (MetaKey.statisKey 1) = none := by
  refine ⟨?_, ?_, ?_, ?_, ?_, ?_, ?_⟩ <;> decide

theorem blockHostsLoop_off_trace (client : AdminClient) (s : Nat) :
    ∀ hs : List Host,
      (blockHostsLoop client SignType.BLOCK_OFF s hs).2 =
        hs.map (fun h => RpcCall.blocking SignType.BLOCK_OFF s h) := by
  intro hs
  induction hs with
  | nil => rfl
  | cons h rest ih =>
    by_cases hok : client.blockingOk s SignType.BLOCK_OFF h
    · simp [blockHostsLoop, hok, ih]
    · simp [blockHostsLoop, hok, ih]

theorem blockHostsLoop_calls (client : AdminClient) (sign : SignType) (s : Nat) :
    ∀ (hs : List Host) (c : RpcCall),
      c ∈ (blockHostsLoop client sign s hs).2 →
      ∃ h, c = RpcCall.blocking sign s h := by
  intro hs
  induction hs with
  | nil => intro c hc; simp [blockHostsLoop] at hc
  | cons h rest ih =>
    intro c hc
    by_cases hok : client.blockingOk s sign h
    · simp only [blockHostsLoop, hok, if_true, List.mem_cons] at hc
      cases hc with
      | inl hc => exact ⟨h, hc⟩
      | inr hc => exact ih c hc
    · by_cases hsign : sign = SignType.BLOCK_ON
      · subst hsign
        simp [blockHostsLoop, hok] at hc
        exact ⟨h, hc⟩
      · simp [blockHostsLoop, hok, hsign] at hc
        cases hc with
        | inl hc => exact ⟨h, hc⟩
        | inr hc => exact ih c hc

theorem blockFold_acc (client : AdminClient) (sign : SignType) :
    ∀ (l : List (Nat × List Host)) (b : Bool) (t : List RpcCall),
      l.foldl
        (fun acc sh =>
          let r := blockHostsLoop client sign sh.1 sh.2
          (acc.1 || r.1, acc.2 ++ r.2))
        (b, t) =
      (b || l.any (fun sh => (blockHostsLoop client sign sh.1 sh.2).1),
       t ++ (l.map (fun sh => (blockHostsLoop client sign sh.1 sh.2).2)).flatten) := by
  intro l
  induction l with
  | nil => intro b t; simp
  | cons sh rest ih =>
    intro b t
    simp only [List.foldl_cons, ih, List.any_cons, List.map_cons,
      List.flatten_cons, Bool.or_assoc, List.append_assoc]

theorem blockingWrites_trace (env : SnapshotEnv) (st : MetaStore)
    (sign : SignType) (hscan : env.scanErr = none) :
    (Snapshot.blockingWrites env st sign).2 =
      ((collectSpacesHosts env.spaces st).map
        (fun sh => (blockHostsLoop env.client sign sh.1 sh.2).2)).flatten := by
  unfold Snapshot.blockingWrites Snapshot.getSpacesHosts
  rw [hscan]
  simp only [blockFold_acc]
  simp

theorem blockingWrites_calls (env : SnapshotEnv) (st : MetaStore)
    (sign : SignType) (c : RpcCall)
    (hc : c ∈ (Snapshot.blockingWrites env st sign).2) :
    ∃ s h, c = RpcCall.blocking sign s h := by
  unfold Snapshot.blockingWrites Snapshot.getSpacesHosts at hc
  cases hscan : env.scanErr with
  | some e => rw [hscan] at hc; simp at hc
  | none =>
    rw [hscan] at hc
    simp only [blockFold_acc] at hc
    simp only [List.nil_append, List.mem_flatten, List.mem_map] at hc
    obtain ⟨l, ⟨sh, _, rfl⟩, hcl⟩ := hc
    obtain ⟨h, rfl⟩ := blockHostsLoop_calls env.client sign sh.1 sh.2 c hcl
    exact ⟨sh.1, h, rfl⟩

theorem blockingWrites_off_complete (env : SnapshotEnv) (st : MetaStore)
    (hscan : env.scanErr = none) :
    ∀ s hs h, (s, hs) ∈ collectSpacesHosts env.spaces st → h ∈ hs →
      RpcCall.blocking SignType.BLOCK_OFF s h ∈
        (Snapshot.blockingWrites env st SignType.BLOCK_OFF).2 := by
  intro s hs h hmem hh
  rw [blockingWrites_trace env st SignType.BLOCK_OFF hscan]
  rw [List.mem_flatten]
  refine ⟨hs.map (fun h' => RpcCall.blocking SignType.BLOCK_OFF s h'), ?_, ?_⟩
  · apply List.mem_map.mpr
    exact ⟨(s, hs), hmem, by rw [blockHostsLoop_off_trace]⟩
  · exact List.mem_map.mpr ⟨h, hh, rfl⟩

theorem createSnapHosts_calls (client : AdminClient) (s : Nat) :
    ∀ (hs : List Host) (c : RpcCall),
      c ∈ (createSnapHosts client s hs).2 →
      ∃ s' h, c = RpcCall.createSnap s' h := by
  intro hs
  induction hs with
  | nil => intro c hc; simp [createSnapHosts] at hc
  | cons h hrest ih =>
    intro c hc
    by_cases hok : client.createOk s h
    · simp only [createSnapHosts, hok, if_true, List.mem_cons] at hc
      cases hc with
      | inl hc => exact ⟨s, h, hc⟩
      | inr hc => exact ih c hc
    · simp [createSnapHosts, hok] at hc
      exact ⟨s, h, hc⟩

theorem createSnapLoop_calls (client : AdminClient) :
    ∀ (shs : List (Nat × List Host)) (c : RpcCall),
      c ∈ (createSnapLoop client shs).2 →
      ∃ s h, c = RpcCall.createSnap s h := by
  intro shs
  induction shs with
  | nil => intro c hc; simp [createSnapLoop] at hc
  | cons sh rest ih =>
    intro c hc
    obtain ⟨s, hs⟩ := sh
    rw [createSnapLoop] at hc
    dsimp only at hc
    cases hres : (createSnapHosts client s hs).1 with
    | error e =>
      rw [hres] at hc
      exact createSnapHosts_calls client s hs c hc
    | ok info =>
      rw [hres] at hc
      simp only [List.mem_append] at hc
      cases hc with
      | inl hc => exact createSnapHosts_calls client s hs c hc
      | inr hc => exact ih c hc

/-- C5, amended: `dropSnapshot` is best-effort — whenever the host
enumeration succeeds it attempts the drop RPC on every enumerated
(space, host) pair whose host is in the given list, regardless of
individual failures, and returns `SUCCEEDED` — while `createSnapshot`
aborts with `E_RPC_FAILURE` at the first failing host, leaving the
remaining pairs unattempted (shown on a two-host space whose first
`createSnapshot` RPC fails). -/
theorem snapshot_best_effort (env : SnapshotEnv) (st : MetaStore)
    (hosts : List Host) (hscan : env.scanErr = none) :
    (Snapshot.dropSnapshot env st hosts).1 = ErrorCode.SUCCEEDED
    ∧ (∀ s hs h, (s, hs) ∈ collectSpacesHosts env.spaces st → h ∈ hs →
        h ∈ hosts →
        RpcCall.dropSnap s h ∈ (Snapshot.dropSnapshot env st hosts).2)
    ∧ Snapshot.createSnapshot snapCreateFailEnv snapStoreEx "nm" =
        (Except.error ErrorCode.E_RPC_FAILURE, [RpcCall.createSnap 1 10]) := by
  refine ⟨?_, ?_, ?_⟩
  · unfold Snapshot.dropSnapshot Snapshot.getSpacesHosts
    rw [hscan]
  · intro s hs h hmem hh hhosts
    unfold Snapshot.dropSnapshot Snapshot.getSpacesHosts
    rw [hscan]
    simp only [List.mem_flatten, List.mem_map]
    refine ⟨(hs.filter (fun h' => hosts.contains h')).map
      (fun h' => RpcCall.dropSnap s h'), ⟨(s, hs), hmem, rfl⟩, ?_⟩
    apply List.mem_map.mpr
    refine ⟨h, ?_, rfl⟩
    apply List.mem_filter.mpr
    exact ⟨hh, by simpa using hhosts⟩
  · rfl

/-- C5 witness: the drop pass over a one-part space on hosts 10 and 11,
with host 10 in the target list, attempts the drop RPC on host 10 and
returns SUCCEEDED. -/
theorem snapshot_best_effort_witness :
    (Snapshot.dropSnapshot snapAllOkEnv snapStoreEx [10]).1 =
      ErrorCode.SUCCEEDED
    ∧ RpcCall.dropSnap 1 10 ∈
        (Snapshot.dropSnapshot snapAllOkEnv snapStoreEx [10]).2 :=
  ⟨(snapshot_best_effort snapAllOkEnv snapStoreEx [10] rfl).1,
   (snapshot_best_effort snapAllOkEnv snapStoreEx [10] rfl).2.1 1 [10, 11] 10
     (by decide) (by decide) (by decide)⟩

/-- C5 counterexample: `createSnapshot` over a space on hosts 10 and 11
whose create RPCs fail issues only the RPC to host 10 — the RPC to the
remaining host 11 is never attempted — and aborts with `E_RPC_FAILURE`,
refuting the per-host best-effort claim for checkpoint creation. -/
theorem createSnapshot_aborts_on_failure :
    Snapshot.createSnapshot snapCreateFailEnv snapStoreEx "nm" =
      (Except.error ErrorCode.E_RPC_FAILURE, [RpcCall.createSnap 1 10])
    ∧ RpcCall.createSnap 1 11 ∉
        (Snapshot.createSnapshot snapCreateFailEnv snapStoreEx "nm").2 := by
  refine ⟨rfl, ?_⟩
  intro hmem
  have : (Snapshot.createSnapshot snapCreateFailEnv snapStoreEx "nm").2 =
      [RpcCall.createSnap 1 10] := rfl
  rw [this] at hmem
  simp at hmem

theorem createSnapshot_calls (env : SnapshotEnv) (st : MetaStore)
    (name : String) (c : RpcCall)
    (hc : c ∈ (Snapshot.createSnapshot env st name).2) :
    ∃ s h, c = RpcCall.createSnap s h := by
  unfold Snapshot.createSnapshot at hc
  cases hg : Snapshot.getSpacesHosts env st with
  | error e => rw [hg] at hc; simp at hc
  | ok spacesHosts =>
    rw [hg] at hc
    exact createSnapLoop_calls env.client spacesHosts c hc

/-- C2, amended: when `blockingWrites(BLOCK_ON)` fails, the request
completes with `E_BLOCK_WRITE_FAILURE` and a `blockingWrites(BLOCK_OFF)`
pass is attempted over every enumerated (space, host) pair before
completing — but no snapshot record is left behind: the INVALID record was
only staged in the processor-local batch, never written, so the store is
unchanged. -/
theorem createBackup_blockOn_failure (env : BackupEnv) (hosts : List Host)
    (spaces : List Nat)
    (hl : env.isLeader = true)
    (hr : isIndexRebuilding env.store = false)
    (ha : env.activeHostsRes = Except.ok hosts)
    (hh : hosts ≠ [])
    (hsp : spaceNameToId env.store env.backupSpacesReq = Except.ok spaces)
    (hscan : env.scanErr = none)
    (hfail : (Snapshot.blockingWrites ⟨env.client, spaces, env.scanErr⟩
        env.store SignType.BLOCK_ON).1 = ErrorCode.E_BLOCK_WRITE_FAILURE) :
    CreateBackupProcessor.process env =
      (ErrorCode.E_BLOCK_WRITE_FAILURE, env.store,
       (Snapshot.blockingWrites ⟨env.client, spaces, env.scanErr⟩
          env.store SignType.BLOCK_ON).2 ++
       (Snapshot.blockingWrites ⟨env.client, spaces, env.scanErr⟩
          env.store SignType.BLOCK_OFF).2)
    ∧ (∀ s hs h, (s, hs) ∈ collectSpacesHosts spaces env.store → h ∈ hs →
        RpcCall.blocking SignType.BLOCK_OFF s h ∈
          (CreateBackupProcessor.process env).2.2)
    ∧ (CreateBackupProcessor.process env).2.1 = env.store := by
  have hproc : CreateBackupProcessor.process env =
      (ErrorCode.E_BLOCK_WRITE_FAILURE, env.store,
       (Snapshot.blockingWrites ⟨env.client, spaces, env.scanErr⟩
          env.store SignType.BLOCK_ON).2 ++
       (Snapshot.blockingWrites ⟨env.client, spaces, env.scanErr⟩
          env.store SignType.BLOCK_OFF).2) := by
    unfold CreateBackupProcessor.process
    rw [hl, hr, ha, hsp]
    simp only [Bool.true_eq_false, not_true, if_false, ite_false, ite_true,
      Bool.false_eq_true, if_neg, hh, hfail]
    simp [hh, hfail]
  refine ⟨hproc, ?_, ?_⟩
  · intro s hs h hmem hh'
    rw [hproc]
    apply List.mem_append_right
    have := blockingWrites_off_complete ⟨env.client, spaces, env.scanErr⟩
      env.store (by simpa using hscan) s hs h hmem hh'
    simpa using this
  · rw [hproc]

/-- C2 witness: on the two-host store where host 11 rejects `BLOCK_ON`, the
failing backup still attempts `BLOCK_OFF` on host 11. -/
theorem createBackup_blockOn_failure_witness :
    RpcCall.blocking SignType.BLOCK_OFF 1 11 ∈
      (CreateBackupProcessor.process backupBlockOnFailEnv).2.2 :=
  (createBackup_blockOn_failure backupBlockOnFailEnv [10, 11] [1]
      rfl rfl rfl (by decide) rfl rfl rfl).2.1 1 [10, 11] 11
    (by decide) (by decide)

/-- C2 counterexample: on the same input the claim's "INVALID snapshot
record is left behind" fails — after the aborted backup there is no record
at all under `snapshotKey(backupName)`, because the INVALID record was only
buffered locally and the buffer is written after the blocking steps
succeed. -/
theorem createBackup_blockOn_no_invalid_record :
    (CreateBackupProcessor.process backupBlockOnFailEnv).1 =
      ErrorCode.E_BLOCK_WRITE_FAILURE
    ∧ ((CreateBackupProcessor.process backupBlockOnFailEnv).2.1).get
        (MetaKey.snapshotKey ("BACKUP_" ++ "T")) = none
    ∧ RpcCall.blocking SignType.BLOCK_OFF 1 10 ∈
        (CreateBackupProcessor.process backupBlockOnFailEnv).2.2
    ∧ RpcCall.blocking SignType.BLOCK_OFF 1 11 ∈
        (CreateBackupProcessor.process backupBlockOnFailEnv).2.2 := by
  refine ⟨?_, ?_, ?_, ?_⟩ <;> decide

/-- C6: when blocking and checkpoint creation succeed but the meta SST
export fails, the request completes with `E_BACKUP_FAILURE`, no
`blockingWrites(BLOCK_OFF)` call is issued (storage writes remain
blocked), and the store is unchanged — in particular no snapshot record is
committed as VALID. -/
theorem createBackup_metaExport_failure (env : BackupEnv) (hosts : List Host)
    (spaces : List Nat) (info : List (Nat × List (Host × String)))
    (hl : env.isLeader = true)
    (hr : isIndexRebuilding env.store = false)
    (ha : env.activeHostsRes = Except.ok hosts)
    (hh : hosts ≠ [])
    (hsp : spaceNameToId env.store env.backupSpacesReq = Except.ok spaces)
    (hOn : (Snapshot.blockingWrites ⟨env.client, spaces, env.scanErr⟩
        env.store SignType.BLOCK_ON).1 = ErrorCode.SUCCEEDED)
    (hCr : (Snapshot.createSnapshot ⟨env.client, spaces, env.scanErr⟩
        env.store (backupNameOf env)).1 = Except.ok info)
    (hMeta : env.metaBackupRes = none) :
    CreateBackupProcessor.process env =
      (ErrorCode.E_BACKUP_FAILURE, env.store,
       (Snapshot.blockingWrites ⟨env.client, spaces, env.scanErr⟩
          env.store SignType.BLOCK_ON).2 ++
       (Snapshot.createSnapshot ⟨env.client, spaces, env.scanErr⟩
          env.store (backupNameOf env)).2)
    ∧ (∀ s h, RpcCall.blocking SignType.BLOCK_OFF s h ∉
        (CreateBackupProcessor.process env).2.2)
    ∧ (CreateBackupProcessor.process env).2.1 = env.store := by
  have hproc : CreateBackupProcessor.process env =
      (ErrorCode.E_BACKUP_FAILURE, env.store,
       (Snapshot.blockingWrites ⟨env.client, spaces, env.scanErr⟩
          env.store SignType.BLOCK_ON).2 ++
       (Snapshot.createSnapshot ⟨env.client, spaces, env.scanErr⟩
          env.store (backupNameOf env)).2) := by
    unfold CreateBackupProcessor.process
    rw [hl, hr, ha, hsp]
    simp [hh, hOn, hCr, hMeta]
  refine ⟨hproc, ?_, ?_⟩
  · intro s h hmem
    rw [hproc] at hmem
    simp only [List.mem_append] at hmem
    cases hmem with
    | inl hmem =>
      obtain ⟨s', h', heq⟩ := blockingWrites_calls _ _ _ _ hmem
      simp at heq
    | inr hmem =>
      obtain ⟨s', h', heq⟩ := createSnapshot_calls _ _ _ _ hmem
      simp at heq
  · rw [hproc]

/-- C6 witness: on the two-host store with a healthy client and a failing
meta SST export, the request fails with `E_BACKUP_FAILURE` and no
`BLOCK_OFF` RPC reaches host 10. -/
theorem createBackup_metaExport_failure_witness :
    (CreateBackupProcessor.process backupMetaFailEnv).1 =
      ErrorCode.E_BACKUP_FAILURE
    ∧ RpcCall.blocking SignType.BLOCK_OFF 1 10 ∉
        (CreateBackupProcessor.process backupMetaFailEnv).2.2 :=
  ⟨by rw [(createBackup_metaExport_failure backupMetaFailEnv [10, 11] [1]
      [(1, [(10, "dir"), (11, "dir")])] rfl rfl rfl (by decide) rfl rfl rfl
      rfl).1],
   (createBackup_metaExport_failure backupMetaFailEnv [10, 11] [1]
      [(1, [(10, "dir"), (11, "dir")])] rfl rfl rfl (by decide) rfl rfl rfl
      rfl).2.1 1 10⟩

theorem add_two_sub_one (n : Nat) : n + 2 - 1 = n + 1 := by omega

theorem add_three_sub_one (n : Nat) : n + 3 - 1 = n + 2 := by omega

theorem add_four_sub_one (n : Nat) : n + 4 - 1 = n + 3 := by omega

theorem buildPlanLoop_ok (env : PlanEnv) :
    ∀ (ctxs : List IndexQueryContext) (n : Nat)
      (t : List PNode × List Nat × Nat),
      buildPlanLoop env ctxs n = Except.ok t →
      t = specChunks env ctxs n ∧
        ∀ ctx ∈ ctxs, (env.getIndex ctx.indexId).isSome = true := by
  intro ctxs
  induction ctxs with
  | nil =>
    intro n t h
    simp only [buildPlanLoop, Except.ok.injEq] at h
    exact ⟨h.symm ▸ rfl, by simp⟩
  | cons ctx rest ih =>
    intro n t h
    rw [buildPlanLoop] at h
    cases hidx : env.getIndex ctx.indexId with
    | none => rw [hidx] at h; exact absurd h (by simp)
    | some indexItem =>
      rw [hidx] at h
      dsimp only at h
      have hchain : specChainOf env ctx =
          specChainKinds env.isEdge
            (yieldNeedData env.yieldCols indexItem.fields ||
              (match ctx.filter with
               | some f => isOutsideIndex f indexItem
               | none => false))
            (ctx.filter.isSome ||
              (match ctx.filter with
               | some f => isOutsideIndex f indexItem
               | none => false)) := by
        simp [specChainOf, hidx, specNeedData, specNeedFilter]
      cases hf : ctx.filter with
      | none =>
        rw [hf] at h hchain
        dsimp only at h hchain
        simp only [Option.isSome_none, Bool.or_false] at h hchain
        cases hynd : yieldNeedData env.yieldCols indexItem.fields with
        | false =>
          rw [hynd] at h hchain
          simp only [Bool.not_false, Bool.and_self, if_true,
            buildPlanBasic] at h
          cases hrec : buildPlanLoop env rest (n + 1 + 1) with
          | error e => rw [hrec] at h; exact absurd h (by simp)
          | ok t' =>
            rw [hrec] at h
            obtain ⟨nodes', outIds', next'⟩ := t'
            simp only [Except.ok.injEq] at h
            obtain ⟨hrec_eq, hrest_some⟩ := ih _ _ hrec
            norm_num at hrec_eq
            subst h
            refine ⟨?_, ?_⟩
            · simp [specChunks, hchain, specChainKinds, chainNodes,
                chainNodesFrom, add_two_sub_one, ← hrec_eq]
            · intro c hc
              simp only [List.mem_cons] at hc
              rcases hc with rfl | hc
              · simp [hidx]
              · exact hrest_some c hc
        | true =>
          rw [hynd] at h hchain
          simp only [Bool.not_true, Bool.not_false, Bool.false_and,
            Bool.true_and, Bool.and_false, Bool.and_true, if_true,
            Bool.false_eq_true, if_false, buildPlanWithData] at h
          cases hrec : buildPlanLoop env rest (n + 2 + 1) with
          | error e => rw [hrec] at h; exact absurd h (by simp)
          | ok t' =>
            rw [hrec] at h
            obtain ⟨nodes', outIds', next'⟩ := t'
            simp only [Except.ok.injEq] at h
            obtain ⟨hrec_eq, hrest_some⟩ := ih _ _ hrec
            norm_num at hrec_eq
            subst h
            refine ⟨?_, ?_⟩
            · simp [specChunks, hchain, specChainKinds, chainNodes,
                chainNodesFrom, add_three_sub_one, ← hrec_eq]
            · intro c hc
              simp only [List.mem_cons] at hc
              rcases hc with rfl | hc
              · simp [hidx]
              · exact hrest_some c hc
      | some f =>
        rw [hf] at h hchain
        dsimp only at h hchain
        simp only [Option.isSome_some, Bool.true_or] at h hchain
        cases hout : isOutsideIndex f indexItem with
        | false =>
          rw [hout] at h hchain
          simp only [Bool.or_false] at h hchain
          cases hynd : yieldNeedData env.yieldCols indexItem.fields with
          | false =>
            rw [hynd] at h hchain
            simp only [Bool.not_false, Bool.not_true, Bool.false_and,
              Bool.true_and, Bool.and_false, Bool.and_true, Bool.and_self,
              if_true, Bool.false_eq_true, if_false,
              buildPlanWithFilter] at h
            cases hrec : buildPlanLoop env rest (n + 2 + 1) with
            | error e => rw [hrec] at h; exact absurd h (by simp)
            | ok t' =>
              rw [hrec] at h
              obtain ⟨nodes', outIds', next'⟩ := t'
              simp only [Except.ok.injEq] at h
              obtain ⟨hrec_eq, hrest_some⟩ := ih _ _ hrec
              norm_num at hrec_eq
              subst h
              refine ⟨?_, ?_⟩
              · simp [specChunks, hchain, specChainKinds, chainNodes,
                  chainNodesFrom, add_three_sub_one, ← hrec_eq]
              · intro c hc
                simp only [List.mem_cons] at hc
                rcases hc with rfl | hc
                · simp [hidx]
                · exact hrest_some c hc
          | true =>
            rw [hynd] at h hchain
            simp only [Bool.not_true, Bool.not_false, Bool.false_and,
              Bool.true_and, Bool.and_false, Bool.and_true, Bool.and_self,
              if_true, Bool.false_eq_true, if_false] at h
            cases hsch : env.schemas with
            | nil =>
              rw [hsch] at h
              exact absurd h (by simp)
            | cons sc scs =>
              rw [hsch] at h
              simp only [reduceCtorEq, if_false, reduceIte,
                buildPlanWithDataAndFilter] at h
              cases hrec : buildPlanLoop env rest (n + 3 + 1) with
              | error e => rw [hrec] at h; exact absurd h (by simp)
              | ok t' =>
                rw [hrec] at h
                obtain ⟨nodes', outIds', next'⟩ := t'
                simp only [Except.ok.injEq] at h
                obtain ⟨hrec_eq, hrest_some⟩ := ih _ _ hrec
                norm_num at hrec_eq
                subst h
                refine ⟨?_, ?_⟩
                · simp [specChunks, hchain, specChainKinds, chainNodes,
                    chainNodesFrom, add_four_sub_one, ← hrec_eq]
                · intro c hc
                  simp only [List.mem_cons] at hc
                  rcases hc with rfl | hc
                  · simp [hidx]
                  · exact hrest_some c hc
        | true =>
          rw [hout] at h hchain
          simp only [Bool.or_true] at h hchain
          simp only [Bool.not_true, Bool.not_false, Bool.false_and,
            Bool.true_and, Bool.and_false, Bool.and_true, Bool.and_self,
            if_true, Bool.false_eq_true, if_false] at h
          cases hsch : env.schemas with
          | nil =>
            rw [hsch] at h
            exact absurd h (by simp)
          | cons sc scs =>
            rw [hsch] at h
            simp only [reduceCtorEq, if_false, reduceIte,
              buildPlanWithDataAndFilter] at h
            cases hrec : buildPlanLoop env rest (n + 3 + 1) with
            | error e => rw [hrec] at h; exact absurd h (by simp)
            | ok t' =>
              rw [hrec] at h
              obtain ⟨nodes', outIds', next'⟩ := t'
              simp only [Except.ok.injEq] at h
              obtain ⟨hrec_eq, hrest_some⟩ := ih _ _ hrec
              norm_num at hrec_eq
              subst h
              refine ⟨?_, ?_⟩
              · simp [specChunks, hchain, specChainKinds, chainNodes,
                  chainNodesFrom, add_four_sub_one, ← hrec_eq]
              · intro c hc
                simp only [List.mem_cons] at hc
                rcases hc with rfl | hc
                · simp [hidx]
                · exact hrest_some c hc

theorem chainNodesFrom_map_kind :
    ∀ (ks : List NodeKind) (prev n : Nat),
      (chainNodesFrom prev ks n).map PNode.kind = ks := by
  intro ks
  induction ks with
  | nil => intro prev n; rfl
  | cons k ks ih => intro prev n; simp [chainNodesFrom, ih]

theorem chainNodes_map_kind (ks : List NodeKind) (n : Nat) :
    (chainNodes ks n).map PNode.kind = ks := by
  cases ks with
  | nil => rfl
  | cons k ks => simp [chainNodes, chainNodesFrom_map_kind]

theorem chainNodesFrom_bounds :
    ∀ (ks : List NodeKind) (prev n : Nat), prev < n →
      ∀ p ∈ chainNodesFrom prev ks n,
        p.nid < n + ks.length ∧ ∀ d ∈ p.deps, d < p.nid := by
  intro ks
  induction ks with
  | nil => intro prev n _ p hp; simp [chainNodesFrom] at hp
  | cons k ks ih =>
    intro prev n hprev p hp
    simp only [chainNodesFrom, List.mem_cons] at hp
    rcases hp with rfl | hp
    · refine ⟨by simp, ?_⟩
      intro d hd
      simp only [List.mem_singleton] at hd
      subst hd
      simpa using hprev
    · have hb := ih n (n + 1) (by omega) p hp
      refine ⟨?_, hb.2⟩
      have := hb.1
      simp only [List.length_cons]
      omega

theorem chainNodes_bounds (ks : List NodeKind) (n : Nat) :
    ∀ p ∈ chainNodes ks n,
      p.nid < n + ks.length ∧ ∀ d ∈ p.deps, d < p.nid := by
  intro p hp
  cases ks with
  | nil => simp [chainNodes] at hp
  | cons k ks =>
    simp only [chainNodes, List.mem_cons] at hp
    rcases hp with rfl | hp
    · refine ⟨by simp, ?_⟩
      intro d hd
      simp at hd
    · have hb := chainNodesFrom_bounds ks n (n + 1) (by omega) p hp
      refine ⟨?_, hb.2⟩
      have := hb.1
      simp only [List.length_cons]
      omega

theorem chainNodesFrom_last :
    ∀ (ks : List NodeKind) (prev n : Nat), ks ≠ [] →
      ∃ q ∈ chainNodesFrom prev ks n,
        q.nid = n + ks.length - 1 ∧ some q.kind = ks.getLast? := by
  intro ks
  induction ks with
  | nil => intro prev n hne; exact absurd rfl hne
  | cons k ks ih =>
    intro prev n _
    cases ks with
    | nil =>
      exact ⟨⟨n, k, [prev]⟩, by simp [chainNodesFrom], by simp, by simp⟩
    | cons k2 ks2 =>
      obtain ⟨q, hq, hnid, hkind⟩ := ih n (n + 1) (by simp)
      refine ⟨q, ?_, ?_, ?_⟩
      · exact List.mem_cons_of_mem _ hq
      · rw [hnid]
        simp only [List.length_cons]
        omega
      · rw [hkind, List.getLast?_cons_cons]

theorem chainNodes_last (ks : List NodeKind) (n : Nat) (hne : ks ≠ []) :
    ∃ q ∈ chainNodes ks n,
      q.nid = n + ks.length - 1 ∧ some q.kind = ks.getLast? := by
  cases ks with
  | nil => exact absurd rfl hne
  | cons k ks =>
    cases ks with
    | nil => exact ⟨⟨n, k, []⟩, by simp [chainNodes], by simp, by simp⟩
    | cons k2 ks2 =>
      obtain ⟨q, hq, hnid, hkind⟩ := chainNodesFrom_last (k2 :: ks2) n (n + 1)
        (by simp)
      refine ⟨q, ?_, ?_, ?_⟩
      · exact List.mem_cons_of_mem _ hq
      · rw [hnid]
        simp only [List.length_cons]
        omega
      · rw [hkind, List.getLast?_cons_cons]

theorem specChainOf_props (env : PlanEnv) (ctx : IndexQueryContext)
    (h : (env.getIndex ctx.indexId).isSome = true) :
    (specChainOf env ctx).getLast? = some NodeKind.indexOutputNode
    ∧ 2 ≤ (specChainOf env ctx).length
    ∧ NodeKind.deDupNode ∉ specChainOf env ctx
    ∧ NodeKind.aggregateNode ∉ specChainOf env ctx := by
  obtain ⟨idx, hidx⟩ := Option.isSome_iff_exists.mp h
  simp only [specChainOf, hidx]
  refine ⟨?_, ?_, ?_, ?_⟩ <;>
    cases specNeedData env ctx idx <;>
      cases specNeedFilter ctx idx <;>
        cases henv : env.isEdge <;> simp [specChainKinds]

theorem specChunks_map_kind (env : PlanEnv) :
    ∀ (ctxs : List IndexQueryContext) (n : Nat),
      ((specChunks env ctxs n).1).map PNode.kind =
        (ctxs.map (fun ctx => specChainOf env ctx)).flatten := by
  intro ctxs
  induction ctxs with
  | nil => intro n; simp [specChunks]
  | cons ctx rest ih =>
    intro n
    simp only [specChunks, List.map_cons, List.flatten_cons, List.map_append,
      chainNodes_map_kind, ih]

theorem specChunks_bounds (env : PlanEnv) :
    ∀ (ctxs : List IndexQueryContext) (n : Nat),
      (∀ ctx ∈ ctxs, (env.getIndex ctx.indexId).isSome = true) →
      n ≤ (specChunks env ctxs n).2.2
      ∧ (∀ p ∈ (specChunks env ctxs n).1,
          p.nid < (specChunks env ctxs n).2.2 ∧ ∀ d ∈ p.deps, d < p.nid)
      ∧ (∀ o ∈ (specChunks env ctxs n).2.1, o < (specChunks env ctxs n).2.2) := by
  intro ctxs
  induction ctxs with
  | nil =>
    intro n _
    refine ⟨le_refl n, ?_, ?_⟩ <;> intro x hx <;> simp [specChunks] at hx
  | cons ctx rest ih =>
    intro n hsome
    have hhead := hsome ctx (by simp)
    have htail : ∀ c ∈ rest, (env.getIndex c.indexId).isSome = true :=
      fun c hc => hsome c (by simp [hc])
    have hlen := (specChainOf_props env ctx hhead).2.1
    obtain ⟨ihle, ihnodes, ihout⟩ :=
      ih (n + (specChainOf env ctx).length) htail
    simp only [specChunks]
    refine ⟨by omega, ?_, ?_⟩
    · intro p hp
      simp only [List.mem_append] at hp
      rcases hp with hp | hp
      · have hb := chainNodes_bounds (specChainOf env ctx) n p hp
        exact ⟨by omega, hb.2⟩
      · exact ihnodes p hp
    · intro o ho
      simp only [List.mem_cons] at ho
      rcases ho with rfl | ho
      · omega
      · exact ihout o ho

theorem specChunks_outputs (env : PlanEnv) :
    ∀ (ctxs : List IndexQueryContext) (n : Nat),
      (∀ ctx ∈ ctxs, (env.getIndex ctx.indexId).isSome = true) →
      ∀ o ∈ (specChunks env ctxs n).2.1,
        ∃ q ∈ (specChunks env ctxs n).1,
          q.nid = o ∧ q.kind = NodeKind.indexOutputNode := by
  intro ctxs
  induction ctxs with
  | nil => intro n _ o ho; simp [specChunks] at ho
  | cons ctx rest ih =>
    intro n hsome o ho
    have hhead := hsome ctx (by simp)
    have htail : ∀ c ∈ rest, (env.getIndex c.indexId).isSome = true :=
      fun c hc => hsome c (by simp [hc])
    obtain ⟨hlast, hlen, -, -⟩ := specChainOf_props env ctx hhead
    simp only [specChunks, List.mem_cons] at ho
    rcases ho with rfl | ho
    · obtain ⟨q, hq, hnid, hkind⟩ := chainNodes_last (specChainOf env ctx) n
        (by intro hnil; rw [hnil] at hlen; simp at hlen)
      refine ⟨q, ?_, hnid, ?_⟩
      · simp only [specChunks, List.mem_append]
        exact Or.inl hq
      · rw [hlast] at hkind
        exact Option.some.inj hkind.symm ▸ rfl
    · obtain ⟨q, hq, hnid, hkind⟩ :=
        ih (n + (specChainOf env ctx).length) htail o ho
      refine ⟨q, ?_, hnid, hkind⟩
      simp only [specChunks, List.mem_append]
      exact Or.inr hq

theorem specChunks_no_tail_kinds (env : PlanEnv) :
    ∀ (ctxs : List IndexQueryContext) (n : Nat),
      (∀ ctx ∈ ctxs, (env.getIndex ctx.indexId).isSome = true) →
      ∀ p ∈ (specChunks env ctxs n).1,
        p.kind ≠ NodeKind.deDupNode ∧ p.kind ≠ NodeKind.aggregateNode := by
  intro ctxs n hsome p hp
  have hk : p.kind ∈ ((specChunks env ctxs n).1).map PNode.kind :=
    List.mem_map.mpr ⟨p, hp, rfl⟩
  rw [specChunks_map_kind] at hk
  rw [List.mem_flatten] at hk
  obtain ⟨l, hl, hkl⟩ := hk
  obtain ⟨ctx, hctx, rfl⟩ := List.mem_map.mp hl
  obtain ⟨-, -, hnd, hna⟩ := specChainOf_props env ctx (hsome ctx hctx)
  exact ⟨fun he => hnd (he ▸ hkl), fun he => hna (he ▸ hkl)⟩

/-- C3: every successfully built lookup plan decomposes into the per-context
chains prescribed by the specification's shape table — computed from
`specNeedData`/`specNeedFilter` — followed by a DeDupNode and the terminal
AggregateNode: each context contributes IndexScanNode → IndexOutputNode,
IndexScanNode → (IndexEdgeNode | IndexVertexNode) → IndexOutputNode,
IndexScanNode → IndexFilterNode → IndexOutputNode, or IndexScanNode →
fetch → IndexFilterNode → IndexOutputNode, in linear dependency order; the
single DeDupNode depends on every context's output node and its sole
consumer is the terminal AggregateNode. -/
theorem buildPlan_shapes (env : PlanEnv) (contexts : List IndexQueryContext)
    (plan : List PNode)
    (h : LookupBaseProcessor.buildPlan env contexts = Except.ok plan) :
    ∃ nodes outIds next,
      specChunks env contexts 0 = (nodes, outIds, next)
      ∧ plan = nodes ++
          [⟨next, NodeKind.deDupNode, outIds⟩,
           ⟨next + 1, NodeKind.aggregateNode, [next]⟩]
      ∧ plan.map PNode.kind =
          (contexts.map (fun ctx => specChainOf env ctx)).flatten ++
            [NodeKind.deDupNode, NodeKind.aggregateNode]
      ∧ (∀ o ∈ outIds,
          ∃ q ∈ nodes, q.nid = o ∧ q.kind = NodeKind.indexOutputNode)
      ∧ (∀ p ∈ plan, next ∈ p.deps → p.kind = NodeKind.aggregateNode)
      ∧ (plan.filter (fun p => p.kind == NodeKind.deDupNode)).length = 1
      ∧ plan.getLast? = some ⟨next + 1, NodeKind.aggregateNode, [next]⟩ := by
  unfold LookupBaseProcessor.buildPlan at h
  cases hloop : buildPlanLoop env contexts 0 with
  | error e => rw [hloop] at h; exact absurd h (by simp)
  | ok t =>
    rw [hloop] at h
    obtain ⟨nodes, outIds, next⟩ := t
    simp only [Except.ok.injEq] at h
    subst h
    obtain ⟨heq, hsome⟩ := buildPlanLoop_ok env contexts 0 _ hloop
    have hn : nodes = (specChunks env contexts 0).1 := by rw [← heq]
    have ho : outIds = (specChunks env contexts 0).2.1 := by rw [← heq]
    have hx : next = (specChunks env contexts 0).2.2 := by rw [← heq]
    obtain ⟨hle, hnodes, houtlt⟩ := specChunks_bounds env contexts 0 hsome
    refine ⟨nodes, outIds, next, heq.symm, rfl, ?_, ?_, ?_, ?_, ?_⟩
    · rw [List.map_append, hn, specChunks_map_kind]
      rfl
    · intro o hoo
      rw [ho] at hoo
      obtain ⟨q, hq, hnid, hkind⟩ := specChunks_outputs env contexts 0 hsome o hoo
      exact ⟨q, hn ▸ hq, hnid, hkind⟩
    · intro p hp hdep
      simp only [List.mem_append, List.mem_cons, List.mem_singleton] at hp
      rcases hp with hp | hp | hp
      · have hb := hnodes p (hn ▸ hp)
        have h1 := hb.1
        have h2 := hb.2 next hdep
        rw [← hx] at h1
        omega
      · subst hp
        simp only at hdep
        have := houtlt next (ho ▸ hdep)
        rw [← hx] at this
        omega
      · rcases hp with rfl | hfalse
        · rfl
        · exact absurd hfalse (by simp)
    · rw [List.filter_append]
      have hnil : nodes.filter (fun p => p.kind == NodeKind.deDupNode) = [] := by
        rw [List.filter_eq_nil_iff]
        intro p hp
        have := (specChunks_no_tail_kinds env contexts 0 hsome p (hn ▸ hp)).1
        simpa using this
      rw [hnil]
      rfl
    · rw [show (nodes ++
          [(⟨next, NodeKind.deDupNode, outIds⟩ : PNode),
           ⟨next + 1, NodeKind.aggregateNode, [next]⟩]) =
          (nodes ++ [⟨next, NodeKind.deDupNode, outIds⟩]) ++
            [⟨next + 1, NodeKind.aggregateNode, [next]⟩] by simp]
      rw [List.getLast?_concat]

/-- C3 witness: one scan-only context (indexed YIELD column, no filter)
yields the plan IndexScanNode → IndexOutputNode → DeDupNode →
AggregateNode. -/
theorem buildPlan_shapes_witness :
    ([⟨0, NodeKind.indexScanNode, []⟩, ⟨1, NodeKind.indexOutputNode, [0]⟩,
      ⟨2, NodeKind.deDupNode, [1]⟩, ⟨3, NodeKind.aggregateNode, [2]⟩] :
        List PNode).map PNode.kind =
      (planCtxsEx.map (fun ctx => specChainOf planEnvEx ctx)).flatten ++
        [NodeKind.deDupNode, NodeKind.aggregateNode] := by
  obtain ⟨nodes, outIds, next, heq, hplan, hkinds, hrest⟩ :=
    buildPlan_shapes planEnvEx planCtxsEx
      [⟨0, NodeKind.indexScanNode, []⟩, ⟨1, NodeKind.indexOutputNode, [0]⟩,
       ⟨2, NodeKind.deDupNode, [1]⟩, ⟨3, NodeKind.aggregateNode, [2]⟩] rfl
  exact hkinds

end NebulaMeta
